import Mathlib

/-!
A shallow embedding of the vitastor local blockstore core
(`src/blockstore.h`, `src/blockstore_read.cpp`, `src/blockstore_write.cpp`)
and proofs about its read and write dispatch paths.

Machine integers are modelled as `Nat`; where a C++ `uint64_t` subtraction
can wrap, the wrap is made explicit with `sub64`.  Fallible lookups return
`Option`.  Kernel submission-slot (SQE) availability is modelled as a
`Nat` budget threaded through the dispatch functions.
-/

/-- 2^64, the modulus of C++ `uint64_t` arithmetic. -/
def U64 : Nat := 18446744073709551616

/-- `uint64_t` subtraction `a - b` with explicit wraparound (both operands
assumed `< U64`, as every journal field is). -/
def sub64 (a b : Nat) : Nat := (a + U64 - b) % U64

/-- `UINT64_MAX`, used by `dequeue_read` to form the upper-bound search key. -/
def UINT64MAX : Nat := 18446744073709551615

-- Dirty-version states, from src/blockstore.h lines 27-44.

def ST_IN_FLIGHT : Nat := 1
def ST_J_WRITTEN : Nat := 2
def ST_J_SYNCED : Nat := 3
def ST_J_STABLE : Nat := 4
def ST_J_MOVED : Nat := 5
def ST_J_MOVE_SYNCED : Nat := 6
def ST_D_WRITTEN : Nat := 16
def ST_D_SYNCED : Nat := 17
def ST_D_META_WRITTEN : Nat := 18
def ST_D_META_SYNCED : Nat := 19
def ST_D_STABLE : Nat := 20
def ST_D_META_MOVED : Nat := 21
def ST_D_META_COMMITTED : Nat := 22
def ST_DEL_WRITTEN : Nat := 23
def ST_DEL_SYNCED : Nat := 24
def ST_DEL_STABLE : Nat := 25
def ST_DEL_MOVED : Nat := 26
def ST_CURRENT : Nat := 32

/-- Modelled from the spec: `ST_J_SUBMITTED` and `ST_D_SUBMITTED` are the
dispatch-time states assigned by `dequeue_write`; their numeric values are
defined outside `src/` (`blockstore_journal.h` is absent).  Fresh values,
distinct from every state in `blockstore.h`, are used; no claim depends on
the numbers. -/
def ST_J_SUBMITTED : Nat := 33

/-- Modelled from the spec: see `ST_J_SUBMITTED`. -/
def ST_D_SUBMITTED : Nat := 34

/-- `IS_STABLE` macro, src/blockstore.h line 45. -/
def IS_STABLE (st : Nat) : Bool :=
  st == 4 || st == 5 || st == 6 || st == 20 || st == 21 || st == 22 || st == 32 || st == 24 || st == 25

/-- `IS_JOURNAL` macro, src/blockstore.h line 46. -/
def IS_JOURNAL (st : Nat) : Bool := 2 ≤ st && st ≤ 6

-- Operation type codes and wait reasons, src/blockstore.h lines 147-162.

def OP_READ : Nat := 1
def OP_READ_DIRTY : Nat := 2
def OP_WRITE : Nat := 3
def OP_TYPE_MASK : Nat := 7

def WAIT_SQE : Nat := 1
def WAIT_IN_FLIGHT : Nat := 2
def WAIT_JOURNAL : Nat := 3
def WAIT_JOURNAL_BUFFER : Nat := 4

/-- Linux `ENOSPC` error number, used by the big-write no-space path. -/
def ENOSPC : Nat := 28

/-- 128-bit object id `(inode, stripe)`, src/blockstore.h `struct object_id`. -/
structure object_id where
  inode : Nat
  stripe : Nat
deriving DecidableEq, Repr

/-- `operator <` on `object_id` (lexicographic), src/blockstore.h lines 71-74. -/
def oidLt (a b : object_id) : Bool :=
  a.inode < b.inode || (a.inode == b.inode && a.stripe < b.stripe)

/-- `(oid, version)` dirty-index key, src/blockstore.h `struct obj_ver_id`. -/
structure obj_ver_id where
  oid : object_id
  version : Nat
deriving DecidableEq, Repr

/-- `operator <` on `obj_ver_id`, src/blockstore.h lines 101-104. -/
def ovLt (a b : obj_ver_id) : Bool :=
  oidLt a.oid b.oid || (a.oid == b.oid && a.version < b.version)

/-- In-memory clean entry, src/blockstore.h `struct clean_entry`. -/
structure clean_entry where
  version : Nat
  state : Nat
  location : Nat
deriving DecidableEq, Repr

/-- In-memory dirty entry, src/blockstore.h `struct dirty_entry`. -/
structure dirty_entry where
  state : Nat
  flags : Nat
  location : Nat
  offset : Nat
  size : Nat
deriving DecidableEq, Repr

/-- Per-sector journal bookkeeping (`journal.sector_info[i]`): the disk
offset the in-memory sector buffer will be written to, and the usage count
that blocks trimming and buffer reuse. -/
structure sector_info_t where
  offset : Nat
  usage_count : Nat
deriving DecidableEq, Repr

/-- The journal allocator/writer state (`struct journal_t`): the fields of
the journal that `dequeue_write` and `dequeue_read` consult or mutate. -/
structure journal_t where
  offset : Nat
  len : Nat
  next_free : Nat
  used_start : Nat
  in_sector_pos : Nat
  cur_sector : Nat
  sector_count : Nat
  sector_info : List sector_info_t
  crc32_last : Nat
deriving DecidableEq, Repr

/-- Modelled from the spec: the journal-entry binary layout comes from
`blockstore_journal.h`, which is absent from `src/`; the spec (§6) gives
the common 24-byte header `{crc32, magic, type, size, crc32_prev,
reserved}` followed by `{oid(16), version(8), offset(4), len(4)}` for a
small write, 56 bytes in total. -/
structure journal_entry_small_write where
  crc32 : Nat
  magic : Nat
  type : Nat
  size : Nat
  crc32_prev : Nat
  oid : object_id
  version : Nat
  offset : Nat
  len : Nat
deriving DecidableEq, Repr

/-- Modelled from the spec: `JOURNAL_MAGIC` is defined in the absent
`blockstore_journal.h`; its concrete value is immaterial to every claim. -/
def JOURNAL_MAGIC : Nat := 424213574

/-- Modelled from the spec: journal entry type tag of a small write. -/
def JE_SMALL_WRITE : Nat := 2

/-- Modelled from the spec: `sizeof(struct journal_entry_small_write)`,
56 bytes per the binary layout in spec §6. -/
def JE_SMALL_WRITE_SIZE : Nat := 56

/-- One step of the reflected CRC-32 bit loop (polynomial 0xEDB88320). -/
def crc32Step (c : Nat) : Nat :=
  if c % 2 == 1 then (c / 2) ^^^ 0xEDB88320 else c / 2

/-- Fold one byte into a CRC-32 accumulator. -/
def crc32Byte (c b : Nat) : Nat :=
  (List.range 8).foldl (fun acc _ => crc32Step acc) (c ^^^ (b % 256))

/-- CRC-32 of a byte list (init and final xor 0xFFFFFFFF). -/
def crc32Bytes (l : List Nat) : Nat :=
  (l.foldl crc32Byte 0xFFFFFFFF) ^^^ 0xFFFFFFFF

/-- Little-endian byte serialization of `v` into `n` bytes. -/
def leBytes (n v : Nat) : List Nat :=
  (List.range n).map (fun i => v / 256 ^ i % 256)

/-- Modelled from the spec: serialization of a small-write journal entry per
the binary format of spec §6 (little-endian, 24-byte header with 4 reserved
bytes, then oid, version, offset, len). -/
def jeSmallWriteBytes (je : journal_entry_small_write) : List Nat :=
  leBytes 4 je.crc32 ++ leBytes 4 je.magic ++ leBytes 4 je.type ++ leBytes 4 je.size ++
  leBytes 4 je.crc32_prev ++ leBytes 4 0 ++
  leBytes 8 je.oid.inode ++ leBytes 8 je.oid.stripe ++
  leBytes 8 je.version ++ leBytes 4 je.offset ++ leBytes 4 je.len

/-- Modelled from the spec: `je_crc32` lives in the absent
`blockstore_journal.h`; per the spec the entry's `crc32` is computed over
the entry itself, whose `crc32` field the code zeroes first
(src/blockstore_write.cpp lines 83-94). -/
def je_crc32 (je : journal_entry_small_write) : Nat :=
  crc32Bytes (jeSmallWriteBytes { je with crc32 := 0 })

/-- Modelled from the spec: the data-region bitmap allocator
(`allocator.h` is absent from `src/`).  The bitmap is a list of booleans,
`true` = allocated; `allocator_find_free` returns the first free block
index, or `none` where the C++ returns `(uint64_t)-1`. -/
def allocator_find_free (a : List Bool) : Option Nat :=
  a.findIdx? (fun b => !b)

/-- Modelled from the spec: `allocator_set` marks block `i` used/free. -/
def allocator_set (a : List Bool) (i : Nat) (v : Bool) : List Bool :=
  a.set i v

/-- Caller-visible operation record, src/blockstore.h
`struct blockstore_operation` (the buffer pointer and the callback
closure are not part of the embedded state; buffer effects are tracked
in the dispatch results). -/
structure blockstore_operation where
  flags : Nat
  oid : object_id
  version : Nat
  offset : Nat
  len : Nat
  retval : Int
  pending_ops : Nat
  wait_for : Nat
  wait_detail : Nat
  used_journal_sector : Nat
deriving DecidableEq, Repr

/-- The blockstore state consulted and mutated by the embedded dispatch
functions: the clean index, the dirty index (a key-sorted association
list, as `std::map` stores it), geometry, the data-region allocator
bitmap, the journal, and the size of `in_process_ops`. -/
structure blockstore where
  object_db : List (object_id × clean_entry)
  dirty_db : List (obj_ver_id × dirty_entry)
  block_order : Nat
  block_size : Nat
  data_offset : Nat
  data_alloc : List Bool
  journal : journal_t
  in_process_count : Nat
deriving DecidableEq, Repr

/-- Which device an emitted kernel I/O targets. -/
inductive io_fd where
  | journal_dev : io_fd
  | data_dev : io_fd
deriving DecidableEq, Repr

/-- One emitted kernel submission (readv/writev): device, byte offset,
byte length. -/
structure io_desc where
  fd : io_fd
  off : Nat
  len : Nat
deriving DecidableEq, Repr

/-- `object_db.find(oid)` on the clean index. -/
def findClean (db : List (object_id × clean_entry)) (oid : object_id) : Option clean_entry :=
  match db.find? (fun kv => kv.1 == oid) with
  | some kv => some kv.2
  | none => none

/-- `dirty_db.find(key)` on the dirty index. -/
def findDirty (db : List (obj_ver_id × dirty_entry)) (k : obj_ver_id) : Option dirty_entry :=
  match db.find? (fun kv => kv.1 == k) with
  | some kv => some kv.2
  | none => none

/-- Pointwise update of the dirty entry at key `k` (`dirty_it->second = ...`;
total: a missing key updates nothing). -/
def setDirty (db : List (obj_ver_id × dirty_entry)) (k : obj_ver_id) (e : dirty_entry) :
    List (obj_ver_id × dirty_entry) :=
  db.map (fun kv => if kv.1 == k then (kv.1, e) else kv)

/-- `sector_info[i]` with a default for the (unreachable) out-of-range case. -/
def sectorAt (j : journal_t) (i : Nat) : sector_info_t :=
  (j.sector_info.get? i).getD { offset := 0, usage_count := 0 }

/-- Replace `sector_info[i]`. -/
def setSector (j : journal_t) (i : Nat) (s : sector_info_t) : journal_t :=
  { j with sector_info := j.sector_info.set i s }

/-- Result of one `dequeue_write` attempt: the C++ return value (1 =
dequeued, 0 = left on the queue waiting), the updated blockstore and op,
the kernel I/Os emitted, whether the op's callback ran inline, and the
journal entry assembled for a small write. -/
structure write_result where
  ret : Nat
  bs : blockstore
  op : blockstore_operation
  ios : List io_desc
  calledBack : Bool
  je : Option journal_entry_small_write
deriving DecidableEq, Repr

/-- `blockstore::dequeue_write`, src/blockstore_write.cpp lines 4-120,
embedded line for line.  `budget` is the number of free SQEs
(`BS_GET_SQE` fails when it is exhausted, parking the op with
`WAIT_SQE`, per spec §5; the macro itself is defined outside `src/`). -/
def dequeue_write (bs : blockstore) (op : blockstore_operation) (budget : Nat) : write_result :=
  if op.len == bs.block_size then
    -- Big (redirect) write
    match allocator_find_free bs.data_alloc with
    | none =>
      -- no space
      { ret := 1, bs := bs, op := { op with retval := -(ENOSPC : Int) }, ios := [],
        calledBack := true, je := none }
    | some loc =>
      if budget == 0 then
        { ret := 0, bs := bs, op := { op with wait_for := WAIT_SQE }, ios := [],
          calledBack := false, je := none }
      else
        let d0 := (findDirty bs.dirty_db { oid := op.oid, version := op.version }).getD
          { state := 0, flags := 0, location := 0, offset := 0, size := 0 }
        let d1 := { d0 with location := loc <<< bs.block_order, state := ST_D_SUBMITTED }
        let db1 := setDirty bs.dirty_db { oid := op.oid, version := op.version } d1
        let bs := { bs with dirty_db := db1, data_alloc := allocator_set bs.data_alloc loc true }
        { ret := 1, bs := bs,
          op := { op with pending_ops := 1, used_journal_sector := 0 },
          ios := [{ fd := io_fd.data_dev, off := bs.data_offset + (loc <<< bs.block_order),
                    len := op.len }],
          calledBack := false, je := none }
  else
    -- Small (journaled) write: first check if the journal has sufficient space
    let j := bs.journal
    let np0 := j.next_free
    let sectorFull := sub64 512 j.in_sector_pos < JE_SMALL_WRITE_SIZE
    let np1 := if sectorFull then (if np0 + 512 ≥ j.len then 512 else np0 + 512) else np0
    if sectorFull && (sectorAt j ((j.cur_sector + 1) % j.sector_count)).usage_count > 0 then
      -- No memory buffer available. Wait for it.
      { ret := 0, bs := bs, op := { op with wait_for := WAIT_JOURNAL_BUFFER }, ios := [],
        calledBack := false, je := none }
    else
      let np2 := (if sub64 j.len np1 < op.len then 512 else np1) + op.len
      if np2 ≥ j.used_start then
        -- No space in the journal. Wait for it.
        { ret := 0, bs := bs,
          op := { op with wait_for := WAIT_JOURNAL, wait_detail := np2 }, ios := [],
          calledBack := false, je := none }
      else if budget < 2 then
        { ret := 0, bs := bs, op := { op with wait_for := WAIT_SQE }, ios := [],
          calledBack := false, je := none }
      else
        -- Move to the next journal sector (selecting the next buffer) if full;
        -- note the inverted wrap condition, faithful to line 77 of the source.
        let j1 : journal_t := if sectorFull then
            let cs := (j.cur_sector + 1) % j.sector_count
            let j1 := setSector j cs { sectorAt j cs with offset := j.next_free }
            { j1 with cur_sector := cs, in_sector_pos := 0,
                      next_free := if j.next_free + 512 ≥ j.len then j.next_free + 512 else 512 }
          else j
        let je0 : journal_entry_small_write :=
          { crc32 := 0, magic := JOURNAL_MAGIC, type := JE_SMALL_WRITE,
            size := JE_SMALL_WRITE_SIZE, crc32_prev := j1.crc32_last,
            oid := op.oid, version := op.version, offset := op.offset, len := op.len }
        let je := { je0 with crc32 := je_crc32 je0 }
        let io1 : io_desc :=
          { fd := io_fd.journal_dev, off := j1.offset + (sectorAt j1 j1.cur_sector).offset,
            len := 512 }
        -- Prepare journal data write
        let j2 : journal_t := if sub64 j1.len j1.next_free < op.len then { j1 with next_free := 512 } else j1
        let io2 : io_desc :=
          { fd := io_fd.journal_dev, off := j2.offset + j2.next_free, len := op.len }
        let nd0 := (findDirty bs.dirty_db { oid := op.oid, version := op.version }).getD
          { state := 0, flags := 0, location := 0, offset := 0, size := 0 }
        let newDirty := { nd0 with location := j2.next_free, state := ST_J_SUBMITTED }
        -- Move journal.next_free and save last write for current sector
        let j3 : journal_t := { j2 with next_free := j2.next_free + op.len }
        let j4 : journal_t := if j3.next_free ≥ j3.len then { j3 with next_free := 512 } else j3
        let j5 : journal_t := setSector j4 j4.cur_sector
          { sectorAt j4 j4.cur_sector with
            usage_count := (sectorAt j4 j4.cur_sector).usage_count + 1 }
        let j6 : journal_t := { j5 with crc32_last := je.crc32 }
        let db1 := setDirty bs.dirty_db { oid := op.oid, version := op.version } newDirty
        let bs1 := { bs with journal := j6, dirty_db := db1 }
        { ret := 1,
          bs := bs1,
          op := { op with pending_ops := 2, used_journal_sector := 1 + j6.cur_sector },
          ios := [io1, io2],
          calledBack := false, je := some je }

/-- The provenance of bytes a read plans to fill: either the clean entry
(read at `location` in the data region, item range `[0, block_size)`) or a
dirty version (journal or data region according to its state).  `item_start`
is the start of the source's range within the object block; the device read
offset of a sub-range is `location + cur_start - item_start`
(src/blockstore_read.cpp line 38). -/
structure read_source where
  isClean : Bool
  state : Nat
  version : Nat
  location : Nat
  item_start : Nat
  item_end : Nat
deriving DecidableEq, Repr

/-- One entry of `read_op->read_vec`: the byte range `[start, start+len)`
of the object block that a queued kernel read will fill, together with the
source it reads from (in the C++ the source is captured by the prepared
SQE; the map itself stores only the iovec). -/
structure read_vec_entry where
  start : Nat
  len : Nat
  src : read_source
deriving DecidableEq, Repr

/-- The in-progress outcome of a read dispatch pass: the read vector, the
buffer index ranges zero-filled by `memset`, and the remaining SQE budget. -/
structure read_plan where
  rv : List read_vec_entry
  zeros : List (Nat × Nat)
  budget : Nat
deriving DecidableEq, Repr

/-- A wait reason produced inside `fulfill_read_push` (return value -1):
either the source version is still `IN_FLIGHT`, or no SQE is available. -/
inductive read_wait where
  | inflight (version : Nat) : read_wait
  | sqe : read_wait
deriving DecidableEq, Repr

/-- Sorted insertion into the read vector (`read_op->read_vec[cur_start] =
data->iov`; `std::map` keeps keys ordered). -/
def rvInsert : List read_vec_entry → read_vec_entry → List read_vec_entry
  | [], e => [e]
  | f :: rest, e => if e.start < f.start then e :: f :: rest else f :: rvInsert rest e

/-- `blockstore::fulfill_read_push`, src/blockstore_read.cpp lines 3-43:
fill `[cur_start, cur_end)` from the given source — wait if the source is
in flight, `memset` zeroes if it is an unallocated (deletion) state,
otherwise queue a kernel read and record the range in the read vector. -/
def fulfill_read_push (op : blockstore_operation) (src : read_source)
    (cur_start cur_end : Nat) (acc : read_plan) : Except read_wait read_plan :=
  if cur_end > cur_start then
    if src.state == ST_IN_FLIGHT then
      .error (.inflight src.version)
    else if src.state == ST_DEL_WRITTEN || src.state == ST_DEL_SYNCED ||
        src.state == ST_DEL_MOVED then
      .ok { acc with zeros := (cur_start - op.offset, cur_end - op.offset) :: acc.zeros }
    else if acc.budget == 0 then
      .error .sqe
    else
      .ok { acc with
            rv := rvInsert acc.rv { start := cur_start, len := cur_end - cur_start, src := src },
            budget := acc.budget - 1 }
  else
    .ok acc

/-- `read_vec.lower_bound(cur_start)` as an index: the first entry whose
key (start) is `≥ cur_start`; `rv.length` plays the role of `end()`. -/
def lowerBoundIdx (rv : List read_vec_entry) (k : Nat) : Nat :=
  rv.findIdx (fun e => k ≤ e.start)

/-- The iterator adjustment of src/blockstore_read.cpp lines 53-61: step
back to the predecessor when it still overlaps `cur_start`. -/
def adjustedIdx (rv : List read_vec_entry) (cs : Nat) : Nat :=
  let i := lowerBoundIdx rv cs
  if i == 0 then i
  else
    match rv.get? (i - 1) with
    | some e => if e.start + e.len ≤ cs then i else i - 1
    | none => i

/-- The sub-ranges of `[cs, ie)` passed to `fulfill_read_push` by the loop
of src/blockstore_read.cpp lines 62-74: the stretches between successive
read-vector entries, then the final stretch up to `item_end`.  (Degenerate
pairs with second ≤ first are produced too; the push ignores them.) -/
def collectGaps : List read_vec_entry → Nat → Nat → List (Nat × Nat)
  | [], cs, ie => [(cs, ie)]
  | e :: rest, cs, ie =>
    if e.start < ie then (cs, e.start) :: collectGaps rest (e.start + e.len) ie
    else [(cs, ie)]

/-- Run `fulfill_read_push` over each collected gap in order, stopping at
the first wait. -/
def pushGaps (op : blockstore_operation) (src : read_source) :
    List (Nat × Nat) → read_plan → Except read_wait read_plan
  | [], acc => .ok acc
  | g :: rest, acc =>
    match fulfill_read_push op src g.1 g.2 acc with
    | .error w => .error w
    | .ok acc1 => pushGaps op src rest acc1

/-- `blockstore::fulfill_read`, src/blockstore_read.cpp lines 45-77: clamp
the source's range to the requested range, walk the read vector from the
adjusted lower bound, and push every uncovered stretch.  (The C++
interleaves the pushes with the walk; inserted entries always lie strictly
before the walk iterator, so collecting the stretches first is
extensionally the same computation.) -/
def fulfill_read (op : blockstore_operation) (src : read_source)
    (acc : read_plan) : Except read_wait read_plan :=
  if src.item_start < op.offset + op.len ∧ src.item_end > op.offset then
    let cs := max src.item_start op.offset
    let ie := min src.item_end (op.offset + op.len)
    let i := adjustedIdx acc.rv cs
    pushGaps op src (collectGaps (acc.rv.drop i) cs ie) acc
  else
    .ok acc

/-- `dirty_db.upper_bound({oid, UINT64_MAX})` followed by the unconditional
`dirty_it--` of src/blockstore_read.cpp lines 82-86, as an index.  The C++
decrement of the `begin()` iterator is undefined behaviour; the total
embedding returns `none` for it. -/
def dirtyIterStart (db : List (obj_ver_id × dirty_entry)) (oid : object_id) : Option Nat :=
  let i := db.findIdx (fun kv => ovLt { oid := oid, version := UINT64MAX } kv.1)
  if i == 0 then none else some (i - 1)

/-- The dirty entries visited by the loop of src/blockstore_read.cpp lines
99-116: walking down from the start iterator while the oid still matches
(descending version order for a sorted index). -/
def dirtyDescRun (db : List (obj_ver_id × dirty_entry)) (oid : object_id) :
    List (obj_ver_id × dirty_entry) :=
  match dirtyIterStart db oid with
  | none => []
  | some i => ((db.take (i + 1)).reverse).takeWhile (fun kv => kv.1.oid == oid)

/-- The `if` of src/blockstore_read.cpp line 104: a dirty version is used
by this read when the op is a `READ_DIRTY` or the version is stable. -/
def dirtyQualifies (op : blockstore_operation) (d : dirty_entry) : Bool :=
  (op.flags &&& OP_TYPE_MASK) == OP_READ_DIRTY || IS_STABLE d.state

/-- The read source describing a dirty version. -/
def srcOfDirty (kv : obj_ver_id × dirty_entry) : read_source :=
  { isClean := false, state := kv.2.state, version := kv.1.version,
    location := kv.2.location, item_start := kv.2.offset,
    item_end := kv.2.offset + kv.2.size }

/-- The read source describing the clean entry
(src/blockstore_read.cpp line 120: `fulfill_read(.., 0, block_size,
ST_CURRENT, 0, clean_it->second.location)`). -/
def srcOfClean (block_size : Nat) (c : clean_entry) : read_source :=
  { isClean := true, state := ST_CURRENT, version := 0,
    location := c.location, item_start := 0, item_end := block_size }

/-- The dirty loop of src/blockstore_read.cpp lines 99-117. -/
def processDirty (op : blockstore_operation) :
    List (obj_ver_id × dirty_entry) → read_plan → Except read_wait read_plan
  | [], acc => .ok acc
  | kv :: rest, acc =>
    if dirtyQualifies op kv.2 then
      match fulfill_read op (srcOfDirty kv) acc with
      | .error w => .error w
      | .ok acc1 => processDirty op rest acc1
    else
      processDirty op rest acc

/-- Result of one `dequeue_read` attempt, mirroring `write_result`. -/
structure read_result where
  ret : Nat
  bs : blockstore
  op : blockstore_operation
  rv : List read_vec_entry
  zeros : List (Nat × Nat)
  calledBack : Bool
deriving DecidableEq, Repr

/-- `blockstore::dequeue_read`, src/blockstore_read.cpp lines 79-145.
`budget` is the number of free SQEs.  Wholly-unallocated reads and reads
whose walk queued no kernel I/O complete inline with `retval = len` and a
zero-filled buffer; a wait leaves the op parked with the read vector
cleared and the SQE tail rolled back; otherwise the op is dequeued with
`pending_ops = read_vec.size()` and the queued reads are submitted. -/
def dequeue_read (bs : blockstore) (op : blockstore_operation) (budget : Nat) : read_result :=
  let clean := findClean bs.object_db op.oid
  let run := dirtyDescRun bs.dirty_db op.oid
  if clean.isNone ∧ run.isEmpty then
    -- region is not allocated - return zeroes
    { ret := 1, bs := bs, op := { op with retval := (op.len : Int) }, rv := [],
      zeros := [(0, op.len)], calledBack := true }
  else
    let planned : Except read_wait read_plan :=
      match processDirty op run { rv := [], zeros := [], budget := budget } with
      | .error w => .error w
      | .ok acc =>
        match clean with
        | some c => fulfill_read op (srcOfClean bs.block_size c) acc
        | none => .ok acc
    match planned with
    | .error (.inflight v) =>
      -- need to wait. undo added requests, don't dequeue op
      { ret := 0, bs := bs,
        op := { op with wait_for := WAIT_IN_FLIGHT, wait_detail := v }, rv := [],
        zeros := [], calledBack := false }
    | .error .sqe =>
      { ret := 0, bs := bs, op := { op with wait_for := WAIT_SQE }, rv := [],
        zeros := [], calledBack := false }
    | .ok plan =>
      if plan.rv.isEmpty then
        -- region is not allocated - return zeroes
        { ret := 1, bs := bs, op := { op with retval := (op.len : Int) }, rv := [],
          zeros := plan.zeros ++ [(0, op.len)], calledBack := true }
      else
        { ret := 1, bs := { bs with in_process_count := bs.in_process_count + 1 },
          op := { op with retval := 0, pending_ops := plan.rv.length },
          rv := plan.rv, zeros := plan.zeros, calledBack := false }

-- ======================================================================
-- Claim-support definitions
-- ======================================================================

/-- Offset `o` of the object block is planned to be filled from source `s`:
some read-vector entry containing `o` carries `s`.  (The queued kernel
reads complete after the inline `memset`s, so a read-vector entry is what
finally determines the byte.) -/
def coversSrc (rv : List read_vec_entry) (o : Nat) (s : read_source) : Prop :=
  ∃ e ∈ rv, e.start ≤ o ∧ o < e.start + e.len ∧ e.src = s

/-- Offset `o` is covered by some read-vector entry. -/
def covered (rv : List read_vec_entry) (o : Nat) : Prop :=
  ∃ e ∈ rv, e.start ≤ o ∧ o < e.start + e.len

/-- The source's item range contains offset `o`. -/
def srcCovers (s : read_source) (o : Nat) : Bool :=
  s.item_start ≤ o && o < s.item_end

/-- The ordered list of sources `dequeue_read` feeds to `fulfill_read`:
qualifying dirty versions in iteration (descending-version) order, then
the clean entry. -/
def sourceList (bs : blockstore) (op : blockstore_operation) : List read_source :=
  ((dirtyDescRun bs.dirty_db op.oid).filterMap
    (fun kv => if dirtyQualifies op kv.2 then some (srcOfDirty kv) else none)) ++
  (match findClean bs.object_db op.oid with
   | some c => [srcOfClean bs.block_size c]
   | none => [])

/-- The first source in priority order whose item range covers `o`. -/
def firstCover (l : List read_source) (o : Nat) : Option read_source :=
  l.find? (fun s => srcCovers s o)

/-- Read-vector well-formedness: entries sorted by start and pairwise
disjoint (adjacent entries do not overlap). -/
def RVChain : List read_vec_entry → Prop
  | [] => True
  | [_] => True
  | a :: b :: rest => a.start + a.len ≤ b.start ∧ RVChain (b :: rest)

/-- Every read-vector entry has positive length. -/
def AllPos (rv : List read_vec_entry) : Prop := ∀ e ∈ rv, 0 < e.len

/-- The deletion states that `fulfill_read_push` zero-fills instead of
recording in the read vector (src/blockstore_read.cpp line 15; note
`ST_DEL_STABLE` is absent from that list). -/
def isZeroFillDel (st : Nat) : Bool :=
  st == ST_DEL_WRITTEN || st == ST_DEL_SYNCED || st == ST_DEL_MOVED

/-- Fold `fulfill_read` over a source list, stopping at the first wait:
the composite of the dirty loop and the clean step of `dequeue_read`. -/
def processSources (op : blockstore_operation) :
    List read_source → read_plan → Except read_wait read_plan
  | [], acc => .ok acc
  | s :: rest, acc =>
    match fulfill_read op s acc with
    | .error w => .error w
    | .ok acc1 => processSources op rest acc1

/-- The buffer contents after applying the zero-fill ranges of a read
dispatch to a pre-existing buffer (all zero writes, so order is moot). -/
def bufAfter (buf : Nat → Nat) (zs : List (Nat × Nat)) : Nat → Nat :=
  fun i => if zs.any (fun r => r.1 ≤ i && i < r.2) then 0 else buf i

/-- The journal bytes a small write needs free, per the spec's accounting:
a 512-byte sector reservation when the entry does not fit the current
sector, plus the payload. -/
def smallWriteBytesNeeded (j : journal_t) (op : blockstore_operation) : Nat :=
  (if sub64 512 j.in_sector_pos < JE_SMALL_WRITE_SIZE then 512 else 0) + op.len

/-- The position the small-write space check advances to after the
(possible) move to the next sector — `next_pos` after lines 38-45 of
src/blockstore_write.cpp. -/
def smallWriteNextPos1 (j : journal_t) : Nat :=
  if sub64 512 j.in_sector_pos < JE_SMALL_WRITE_SIZE then
    (if j.next_free + 512 ≥ j.len then 512 else j.next_free + 512)
  else j.next_free

/-- The `crc32_prev` chain property of a sequence of journal entries:
each entry's `crc32_prev` is the previous entry's `crc32` (the first
chains to `prev`), and each entry's `crc32` is the CRC of the entry
itself. -/
def crcChain (prev : Nat) : List journal_entry_small_write → Prop
  | [] => True
  | e :: rest => e.crc32_prev = prev ∧ e.crc32 = je_crc32 e ∧ crcChain e.crc32 rest

/-- The last `crc32` of a journal-entry sequence (or `prev` if empty). -/
def lastCrc (prev : Nat) (l : List journal_entry_small_write) : Nat :=
  l.foldl (fun _ e => e.crc32) prev

/-- Dispatch a sequence of small writes in order, each with two free SQEs,
collecting the appended journal entries; `none` if any dispatch fails to
complete (parks or takes the big-write path). -/
def runSmallWrites : blockstore → List blockstore_operation →
    Option (blockstore × List journal_entry_small_write)
  | bs, [] => some (bs, [])
  | bs, op :: rest =>
    let r := dequeue_write bs op 2
    match r.ret, r.je with
    | 1, some je =>
      match runSmallWrites r.bs rest with
      | some (bs1, jes) => some (bs1, je :: jes)
      | none => none
    | _, _ => none

-- ======================================================================
-- Concrete example states used by counterexamples, evaluations and
-- witnesses
-- ======================================================================

/-- Object id used by the concrete examples. -/
def exOid : object_id := { inode := 1, stripe := 0 }

/-- A journal state with an empty live region and free buffers. -/
def exJournal : journal_t :=
  { offset := 0, len := 4096, next_free := 512, used_start := 512, in_sector_pos := 0,
    cur_sector := 0, sector_count := 2,
    sector_info := [{ offset := 0, usage_count := 0 }, { offset := 0, usage_count := 0 }],
    crc32_last := 0 }

/-- A read op on `exOid`, plain `READ`, range `[0, 4096)`. -/
def exReadOp : blockstore_operation :=
  { flags := OP_READ, oid := exOid, version := 0, offset := 0, len := 4096, retval := 0,
    pending_ops := 0, wait_for := 0, wait_detail := 0, used_journal_sector := 0 }

/-- C1 counterexample state: a stable deletion (`ST_DEL_SYNCED`) at
version 2 over a stable small write (`ST_J_STABLE`) at version 1, both
covering `[0, 4096)`; no clean entry. -/
def exC1bs : blockstore :=
  { object_db := [],
    dirty_db := [({ oid := exOid, version := 1 },
                  { state := ST_J_STABLE, flags := 0, location := 1024, offset := 0, size := 4096 }),
                 ({ oid := exOid, version := 2 },
                  { state := ST_DEL_SYNCED, flags := 0, location := 0, offset := 0, size := 4096 })],
    block_order := 17, block_size := 131072, data_offset := 0, data_alloc := [true],
    journal := exJournal, in_process_count := 0 }

/-- The version-1 source of `exC1bs`. -/
def exC1srcV1 : read_source :=
  { isClean := false, state := ST_J_STABLE, version := 1, location := 1024,
    item_start := 0, item_end := 4096 }

/-- The version-2 (stable deletion) source of `exC1bs`. -/
def exC1srcV2 : read_source :=
  { isClean := false, state := ST_DEL_SYNCED, version := 2, location := 0,
    item_start := 0, item_end := 4096 }

/-- C2 failing input: a clean entry plus an `IN_FLIGHT` dirty version 2. -/
def exC2bs : blockstore :=
  { object_db := [(exOid, { version := 1, state := ST_CURRENT, location := 0 })],
    dirty_db := [({ oid := exOid, version := 2 },
                  { state := ST_IN_FLIGHT, flags := 0, location := 0, offset := 0, size := 4096 })],
    block_order := 17, block_size := 131072, data_offset := 0, data_alloc := [true],
    journal := exJournal, in_process_count := 0 }

/-- The clean entry of `exC2bs`. -/
def exC2clean : clean_entry := { version := 1, state := ST_CURRENT, location := 0 }

/-- C8 counterexample state: one `ST_J_SYNCED` small write, read via
`READ_DIRTY`, forcing a journal-region kernel read. -/
def exC8bs : blockstore :=
  { object_db := [],
    dirty_db := [({ oid := exOid, version := 1 },
                  { state := ST_J_SYNCED, flags := 0, location := 2048, offset := 0, size := 4096 })],
    block_order := 17, block_size := 131072, data_offset := 0, data_alloc := [true],
    journal := exJournal, in_process_count := 0 }

/-- A `READ_DIRTY` variant of `exReadOp`. -/
def exReadDirtyOp : blockstore_operation := { exReadOp with flags := OP_READ_DIRTY }

/-- C7 witness state: no clean entry and no dirty entries at all. -/
def exC7bs : blockstore :=
  { object_db := [], dirty_db := [],
    block_order := 17, block_size := 131072, data_offset := 0, data_alloc := [true],
    journal := exJournal, in_process_count := 0 }

/-- A generic write op template on `exOid` (fields overridden per use). -/
def exWriteOp : blockstore_operation :=
  { flags := OP_WRITE, oid := exOid, version := 3, offset := 0, len := 512, retval := 0,
    pending_ops := 0, wait_for := 0, wait_detail := 0, used_journal_sector := 0 }

/-- C5/C10 witness state: allocator bitmap completely full. -/
def exC5bs : blockstore :=
  { object_db := [], dirty_db := [({ oid := exOid, version := 3 },
      { state := ST_IN_FLIGHT, flags := 0, location := 0, offset := 0, size := 131072 })],
    block_order := 17, block_size := 131072, data_offset := 0,
    data_alloc := [true, true, true], journal := exJournal, in_process_count := 0 }

/-- The big-write op for the C5/C10 witnesses. -/
def exC5op : blockstore_operation := { exWriteOp with len := 131072 }

/-- C4 failing input: sector full (`in_sector_pos = 500`), `next_free =
1024`, `journal.len = 4096` — the sector advance does not cross the end
of the journal, yet line 77 wraps `next_free` to 512. -/
def exC4bs : blockstore :=
  { object_db := [], dirty_db := [({ oid := exOid, version := 3 },
      { state := ST_IN_FLIGHT, flags := 0, location := 0, offset := 0, size := 512 })],
    block_order := 17, block_size := 131072, data_offset := 0, data_alloc := [false],
    journal := { offset := 0, len := 4096, next_free := 1024, used_start := 3000,
                 in_sector_pos := 500, cur_sector := 0, sector_count := 2,
                 sector_info := [{ offset := 0, usage_count := 0 },
                                 { offset := 0, usage_count := 0 }],
                 crc32_last := 0 },
    in_process_count := 0 }

/-- C6 counterexample input: the payload reservation wraps (`journal.len -
next_free = 1024 < 2048 = op.len`) and the wrapped end `512 + 2048 = 2560`
reaches past `used_start = 2000`, so the op parks. -/
def exC6bs : blockstore :=
  { object_db := [], dirty_db := [({ oid := exOid, version := 3 },
      { state := ST_IN_FLIGHT, flags := 0, location := 0, offset := 0, size := 2048 })],
    block_order := 17, block_size := 131072, data_offset := 0, data_alloc := [false],
    journal := { offset := 0, len := 4096, next_free := 3072, used_start := 2000,
                 in_sector_pos := 100, cur_sector := 0, sector_count := 2,
                 sector_info := [{ offset := 0, usage_count := 0 },
                                 { offset := 0, usage_count := 0 }],
                 crc32_last := 0 },
    in_process_count := 0 }

/-- The small-write op (`len = 2048`) of the C6 counterexample. -/
def exC6op : blockstore_operation := { exWriteOp with len := 2048 }

/-- C3 witness state: journal with room for several small writes and a
nonzero starting `crc32_last`. -/
def exC3bs : blockstore :=
  { object_db := [], dirty_db := [({ oid := exOid, version := 3 },
      { state := ST_IN_FLIGHT, flags := 0, location := 0, offset := 0, size := 512 }),
      ({ oid := exOid, version := 4 },
      { state := ST_IN_FLIGHT, flags := 0, location := 0, offset := 0, size := 512 })],
    block_order := 17, block_size := 131072, data_offset := 0, data_alloc := [false],
    journal := { offset := 0, len := 4096, next_free := 1024, used_start := 4000,
                 in_sector_pos := 0, cur_sector := 0, sector_count := 2,
                 sector_info := [{ offset := 0, usage_count := 0 },
                                 { offset := 0, usage_count := 0 }],
                 crc32_last := 77 },
    in_process_count := 0 }

/-- The two small writes dispatched in the C3 witness. -/
def exC3ops : List blockstore_operation :=
  [exWriteOp, { exWriteOp with version := 4 }]

/-- C9 witness state: a sorted dirty index whose only key is greater than
`(exOid, UINT64_MAX)`. -/
def exC9db : List (obj_ver_id × dirty_entry) :=
  [({ oid := { inode := 2, stripe := 0 }, version := 5 },
    { state := ST_J_SYNCED, flags := 0, location := 0, offset := 0, size := 512 })]

/-- C1 witness state: a clean entry plus stable small writes v1 over
`[0, 4096)` and v3 over `[2048, 6144)`, sorted dirty index, no
deletions. -/
def exC1wbs : blockstore :=
  { object_db := [(exOid, { version := 1, state := ST_CURRENT, location := 0 })],
    dirty_db := [({ oid := exOid, version := 1 },
                  { state := ST_J_STABLE, flags := 0, location := 1024, offset := 0, size := 4096 }),
                 ({ oid := exOid, version := 3 },
                  { state := ST_J_STABLE, flags := 0, location := 1536, offset := 2048, size := 4096 })],
    block_order := 17, block_size := 131072, data_offset := 100000, data_alloc := [true],
    journal := exJournal, in_process_count := 0 }

/-- The plain `READ` of `[0, 8192)` used by the C1 witness. -/
def exC1wop : blockstore_operation := { exReadOp with len := 8192 }

/-- The version-3 source of `exC1wbs`. -/
def exC1wsrcV3 : read_source :=
  { isClean := false, state := ST_J_STABLE, version := 3, location := 1536,
    item_start := 2048, item_end := 6144 }

/-- Offset `o` lies both in the source's item range and in the requested
range — the clamped range `[cs, ie)` that `fulfill_read` works on. -/
def inClamp (op : blockstore_operation) (src : read_source) (o : Nat) : Prop :=
  src.item_start ≤ o ∧ o < src.item_end ∧ op.offset ≤ o ∧ o < op.offset + op.len

instance inClampDecidable (op : blockstore_operation) (src : read_source) (o : Nat) :
    Decidable (inClamp op src o) := by
  unfold inClamp; infer_instance

instance coversSrcDecidable (rv : List read_vec_entry) (o : Nat) (s : read_source) :
    Decidable (coversSrc rv o s) := by
  unfold coversSrc; infer_instance

instance coveredDecidable (rv : List read_vec_entry) (o : Nat) :
    Decidable (covered rv o) := by
  unfold covered; infer_instance

instance crcChainDecidable (prev : Nat) (l : List journal_entry_small_write) :
    Decidable (crcChain prev l) := by
  induction l generalizing prev with
  | nil => exact .isTrue trivial
  | cons e rest ih =>
    have : Decidable (e.crc32_prev = prev ∧ e.crc32 = je_crc32 e ∧ crcChain e.crc32 rest) :=
      @instDecidableAnd _ _ _ (@instDecidableAnd _ _ _ (ih e.crc32))
    exact this

-- ======================================================================
-- Theorems
-- ======================================================================

/-- C5: a big write dispatched with a full allocator bitmap fails with
`-ENOSPC`: the callback runs inline, the op is dequeued (`return 1`), and
no kernel I/O is emitted. -/
theorem c5_big_write_no_space (bs : blockstore) (op : blockstore_operation) (budget : Nat)
    (hbig : op.len = bs.block_size)
    (hfull : allocator_find_free bs.data_alloc = none) :
    (dequeue_write bs op budget).ret = 1 ∧
    (dequeue_write bs op budget).op.retval = -(ENOSPC : Int) ∧
    (dequeue_write bs op budget).calledBack = true ∧
    (dequeue_write bs op budget).ios = [] := by
  have hb : (op.len == bs.block_size) = true := by simpa [beq_iff_eq] using hbig
  simp [dequeue_write, hb, hfull]

/-- Witness for `c5_big_write_no_space` at the concrete full-allocator
state `exC5bs`. -/
theorem c5_big_write_no_space_witness :
    (dequeue_write exC5bs exC5op 5).ret = 1 ∧
    (dequeue_write exC5bs exC5op 5).op.retval = -(ENOSPC : Int) ∧
    (dequeue_write exC5bs exC5op 5).calledBack = true ∧
    (dequeue_write exC5bs exC5op 5).ios = [] :=
  c5_big_write_no_space exC5bs exC5op 5 (by decide) (by decide)

/-- C10: the no-space error path of a big write changes nothing but the
op's `retval`: the blockstore (allocator bitmap, dirty index, journal) is
returned untouched, and in particular the dirty entry of `(oid, version)`
is exactly what it was. -/
theorem c10_no_space_atomic (bs : blockstore) (op : blockstore_operation) (budget : Nat)
    (hbig : op.len = bs.block_size)
    (hfull : allocator_find_free bs.data_alloc = none) :
    (dequeue_write bs op budget).bs = bs ∧
    (dequeue_write bs op budget).op = { op with retval := -(ENOSPC : Int) } ∧
    findDirty (dequeue_write bs op budget).bs.dirty_db { oid := op.oid, version := op.version } =
      findDirty bs.dirty_db { oid := op.oid, version := op.version } := by
  have hb : (op.len == bs.block_size) = true := by simpa [beq_iff_eq] using hbig
  simp [dequeue_write, hb, hfull]

/-- Witness for `c10_no_space_atomic` at `exC5bs`, whose dirty entry for
`(exOid, 3)` is `IN_FLIGHT` and stays so. -/
theorem c10_no_space_atomic_witness :
    (dequeue_write exC5bs exC5op 5).bs = exC5bs ∧
    (dequeue_write exC5bs exC5op 5).op = { exC5op with retval := -(ENOSPC : Int) } ∧
    findDirty (dequeue_write exC5bs exC5op 5).bs.dirty_db { oid := exOid, version := 3 } =
      findDirty exC5bs.dirty_db { oid := exOid, version := 3 } :=
  c10_no_space_atomic exC5bs exC5op 5 (by decide) (by decide)

/-- C4, evaluation at the failing input: with `next_free = 1024`,
`journal.len = 4096` and a full current sector, the sector advance does
not cross the journal end (`1024 + 512 < 4096`), yet the dispatched write
leaves `next_free = 1024` and places the payload at offset 512 — the wrap
guard of src/blockstore_write.cpp line 77 is inverted relative to the
space-check at lines 44-45 (which computed `next_pos = 1536` here).  Under
the spec's wrap rule the payload would land at 1536 and `next_free` at
2048. -/
theorem c4_wrap_guard_inverted :
    exC4bs.journal.next_free + 512 < exC4bs.journal.len ∧
    sub64 512 exC4bs.journal.in_sector_pos < JE_SMALL_WRITE_SIZE ∧
    (dequeue_write exC4bs exWriteOp 2).ret = 1 ∧
    (dequeue_write exC4bs exWriteOp 2).bs.journal.next_free = 1024 ∧
    (dequeue_write exC4bs exWriteOp 2).ios =
      [{ fd := io_fd.journal_dev, off := 1024, len := 512 },
       { fd := io_fd.journal_dev, off := 512, len := 512 }] ∧
    findDirty (dequeue_write exC4bs exWriteOp 2).bs.dirty_db { oid := exOid, version := 3 } =
      some { state := ST_J_SUBMITTED, flags := 0, location := 512, offset := 0, size := 512 } := by
  decide

/-- C6, counterexample: at `exC6bs` the reservation wraps and the op parks
with `WAIT_JOURNAL`, but `wait_detail` is `next_pos = 512 + op.len = 2560`
— a journal position — whereas the op needs `smallWriteBytesNeeded = 2048`
bytes of free journal space (no sector advance is required), so the claim
"wait_detail equals the number of bytes of free journal space the op
needs" is false here. -/
theorem c6_wait_detail_counterexample :
    (dequeue_write exC6bs exC6op 2).ret = 0 ∧
    (dequeue_write exC6bs exC6op 2).op.wait_for = WAIT_JOURNAL ∧
    (dequeue_write exC6bs exC6op 2).op.wait_detail = 2560 ∧
    smallWriteBytesNeeded exC6bs.journal exC6op = 2048 ∧
    ¬((dequeue_write exC6bs exC6op 2).op.wait_detail =
      smallWriteBytesNeeded exC6bs.journal exC6op) := by
  decide

/-- C6, amended: a small write whose journal reservation wraps
(`journal.len - next_pos < len`) into `used_start` parks with
`wait_for = WAIT_JOURNAL` and `wait_detail = next_pos = 512 + len`, the
prospective end position of the wrapped reservation; it submits no I/O
and leaves the blockstore unchanged. -/
theorem c6_amended_wrap_parks (bs : blockstore) (op : blockstore_operation)
    (budget : Nat)
    (hsmall : (op.len == bs.block_size) = false)
    (hbuf : sub64 512 bs.journal.in_sector_pos < JE_SMALL_WRITE_SIZE →
      (sectorAt bs.journal ((bs.journal.cur_sector + 1) % bs.journal.sector_count)).usage_count = 0)
    (hwrap : sub64 bs.journal.len (smallWriteNextPos1 bs.journal) < op.len)
    (hpark : 512 + op.len ≥ bs.journal.used_start) :
    (dequeue_write bs op budget).ret = 0 ∧
    (dequeue_write bs op budget).op =
      { op with wait_for := WAIT_JOURNAL, wait_detail := 512 + op.len } ∧
    (dequeue_write bs op budget).ios = [] ∧
    (dequeue_write bs op budget).bs = bs := by
  rcases Nat.eq_zero_or_pos (if sub64 512 bs.journal.in_sector_pos < JE_SMALL_WRITE_SIZE then 1 else 0) with h | h
  · simp [dequeue_write, hsmall, smallWriteNextPos1] at hwrap ⊢
    split at h
    case isTrue hfull =>
      simp at h
    case isFalse hfull =>
      simp [hfull] at hwrap ⊢
      simp [hwrap, hpark]
  · simp [dequeue_write, hsmall, smallWriteNextPos1] at hwrap ⊢
    split at h
    case isTrue hfull =>
      simp [hfull] at hwrap ⊢
      simp [hbuf hfull, hwrap, hpark]
    case isFalse hfull =>
      simp at h

/-- Witness for `c6_amended_wrap_parks` at the concrete state `exC6bs`. -/
theorem c6_amended_wrap_parks_witness :
    (dequeue_write exC6bs exC6op 2).ret = 0 ∧
    (dequeue_write exC6bs exC6op 2).op =
      { exC6op with wait_for := WAIT_JOURNAL, wait_detail := 512 + exC6op.len } ∧
    (dequeue_write exC6bs exC6op 2).ios = [] ∧
    (dequeue_write exC6bs exC6op 2).bs = exC6bs :=
  c6_amended_wrap_parks exC6bs exC6op 2 (by decide) (by decide) (by decide) (by decide)

/-- C2, evaluation at the failing input `exC2bs`: although version 2 of
the oid is `IN_FLIGHT` in the dirty index, the plain `READ` does not
stall — `dequeue_read` returns 1 with `wait_for` untouched, planning the
whole range from the older clean entry (`IS_STABLE` filters the
`IN_FLIGHT` version out at src/blockstore_read.cpp line 104 before the
wait logic of `fulfill_read_push` can run). -/
theorem c2_plain_read_does_not_stall :
    findDirty exC2bs.dirty_db { oid := exOid, version := 2 } =
      some { state := ST_IN_FLIGHT, flags := 0, location := 0, offset := 0, size := 4096 } ∧
    (dequeue_read exC2bs exReadOp 5).ret = 1 ∧
    (dequeue_read exC2bs exReadOp 5).op.wait_for = 0 ∧
    coversSrc (dequeue_read exC2bs exReadOp 5).rv 0 (srcOfClean 131072 exC2clean) := by
  decide

/-- C8, counterexample: the `READ_DIRTY` at `exC8bs` queues a kernel read
from the journal region (an entry with `IS_JOURNAL` state ends up in the
read vector), yet the journal — including every sector's `usage_count` —
is returned unchanged: the read path pins nothing. -/
theorem c8_read_pins_nothing_counterexample :
    (∃ e ∈ (dequeue_read exC8bs exReadDirtyOp 5).rv, IS_JOURNAL e.src.state = true) ∧
    (dequeue_read exC8bs exReadDirtyOp 5).ret = 1 ∧
    (dequeue_read exC8bs exReadDirtyOp 5).bs.journal = exC8bs.journal := by
  decide

/-- C8, amended: `dequeue_read` never modifies the journal state — no
sector usage count is incremented on behalf of a read, whatever it
submits. -/
theorem c8_amended_read_leaves_journal (bs : blockstore) (op : blockstore_operation)
    (budget : Nat) :
    (dequeue_read bs op budget).bs.journal = bs.journal := by
  unfold dequeue_read
  dsimp only
  split
  · rfl
  · split
    · rfl
    · rfl
    · split
      · rfl
      · rfl

/-- C9, counterexample: with an empty dirty index — and likewise when
every key exceeds `(oid, UINT64_MAX)` — the `upper_bound` of
src/blockstore_read.cpp lines 82-86 is `begin()`, so the unconditional
`dirty_it--` moves before the beginning of the map (undefined behaviour
in the C++; `none` in the total embedding), refuting "never moves before
the beginning for every input state". -/
theorem c9_decrement_before_begin :
    dirtyIterStart ([] : List (obj_ver_id × dirty_entry)) exOid = none ∧
    dirtyIterStart exC9db exOid = none ∧ exC9db ≠ [] := by
  decide

/-- Transitivity of the source's `obj_ver_id` ordering. -/
theorem ovLt_trans {a b c : obj_ver_id} (hab : ovLt a b = true) (hbc : ovLt b c = true) :
    ovLt a c = true := by
  obtain ⟨⟨ai, as1⟩, av⟩ := a
  obtain ⟨⟨bi, bs1⟩, bv⟩ := b
  obtain ⟨⟨ci, cs1⟩, cv⟩ := c
  simp only [ovLt, oidLt, Bool.or_eq_true, Bool.and_eq_true, decide_eq_true_eq,
    beq_iff_eq, obj_ver_id.mk.injEq, object_id.mk.injEq] at hab hbc ⊢
  omega

/-- C9, amended: on a sorted dirty index the decremented `upper_bound`
iterator stays inside the map exactly when some key is
`≤ (oid, UINT64_MAX)`; with an empty index, or when every key exceeds the
search key, the decrement moves before the beginning (the total embedding
returns `none`; the C++ decrement of `begin()` is undefined behaviour). -/
theorem c9_amended_lookup_in_range (db : List (obj_ver_id × dirty_entry)) (oid : object_id)
    (hsort : List.Pairwise (fun a b => ovLt a.1 b.1 = true) db) :
    (dirtyIterStart db oid).isSome ↔
      ∃ kv ∈ db, ovLt { oid := oid, version := UINT64MAX } kv.1 = false := by
  unfold dirtyIterStart
  cases db with
  | nil => simp
  | cons kv0 rest =>
    rw [List.findIdx_cons]
    by_cases h0 : ovLt { oid := oid, version := UINT64MAX } kv0.1 = true
    · simp only [h0, cond_true]
      constructor
      · intro hs
        simp at hs
      · rintro ⟨kv, hkv, hfalse⟩
        exfalso
        rcases List.mem_cons.mp hkv with rfl | hmem
        · rw [h0] at hfalse
          exact Bool.true_eq_false.mp hfalse
        · have ht := ovLt_trans h0 (List.rel_of_pairwise_cons hsort hmem)
          rw [ht] at hfalse
          exact Bool.true_eq_false.mp hfalse
    · have h0f : ovLt { oid := oid, version := UINT64MAX } kv0.1 = false :=
        Bool.eq_false_iff.mpr h0
      simp only [h0f, cond_false]
      constructor
      · intro _
        exact ⟨kv0, List.mem_cons_self kv0 rest, h0f⟩
      · intro _
        simp

/-- Witness for `c9_amended_lookup_in_range` at the sorted one-entry index
`exC9db`, all of whose keys exceed `(exOid, UINT64_MAX)`. -/
theorem c9_amended_lookup_in_range_witness :
    (dirtyIterStart exC9db exOid).isSome ↔
      ∃ kv ∈ exC9db, ovLt { oid := exOid, version := UINT64MAX } kv.1 = false :=
  c9_amended_lookup_in_range exC9db exOid (by decide)

/-- `je_crc32` ignores the entry's own `crc32` field (it is zeroed before
serialization). -/
theorem je_crc32_mk (c c2 m t sz p : Nat) (oid : object_id) (v off l : Nat) :
    je_crc32 { crc32 := c, magic := m, type := t, size := sz, crc32_prev := p,
               oid := oid, version := v, offset := off, len := l } =
    je_crc32 { crc32 := c2, magic := m, type := t, size := sz, crc32_prev := p,
               oid := oid, version := v, offset := off, len := l } := by
  simp only [je_crc32]

set_option maxHeartbeats 2000000 in
/-- Every successful small-write dispatch chains its journal entry to the
journal's running CRC: `crc32_prev` is the pre-dispatch `crc32_last`, the
entry's `crc32` is the CRC of the entry itself, and `crc32_last` becomes
this entry's `crc32`. -/
theorem dequeue_write_small_crc_step (bs : blockstore) (op : blockstore_operation)
    (budget : Nat) (r : write_result) (je : journal_entry_small_write)
    (h : dequeue_write bs op budget = r) (hje : r.je = some je) :
    je.crc32_prev = bs.journal.crc32_last ∧ je.crc32 = je_crc32 je ∧
    r.bs.journal.crc32_last = je.crc32 := by
  unfold dequeue_write at h
  dsimp only at h
  repeat' split at h
  all_goals subst h
  all_goals
    first
    | exact Option.noConfusion hje
    | (simp only [Option.some.injEq] at hje
       subst hje
       exact ⟨rfl, (je_crc32_mk _ 0 _ _ _ _ _ _ _ _).symm, rfl⟩)

/-- Helper for C3: the CRC chain property of `runSmallWrites`, stated
with the result pair named. -/
theorem runSmallWrites_crc_chain (bs : blockstore) (ops : List blockstore_operation)
    (bs1 : blockstore) (jes : List journal_entry_small_write)
    (h : runSmallWrites bs ops = some (bs1, jes)) :
    crcChain bs.journal.crc32_last jes ∧
    bs1.journal.crc32_last = lastCrc bs.journal.crc32_last jes := by
  induction ops generalizing bs jes with
  | nil =>
    unfold runSmallWrites at h
    simp only [Option.some.injEq, Prod.mk.injEq] at h
    obtain ⟨hbs, hjes⟩ := h
    subst hbs
    subst hjes
    exact ⟨trivial, rfl⟩
  | cons op rest ih =>
    unfold runSmallWrites at h
    dsimp only at h
    split at h
    case h_2 => exact Option.noConfusion h
    case h_1 _ je hret hje =>
      split at h
      case h_2 => exact Option.noConfusion h
      case h_1 bs2 jes2 hrun =>
        simp only [Option.some.injEq, Prod.mk.injEq] at h
        obtain ⟨hbs, hjes⟩ := h
        subst hbs
        subst hjes
        obtain ⟨hprev, hcrc, hlast⟩ :=
          dequeue_write_small_crc_step bs op 2 (dequeue_write bs op 2) je rfl hje
        obtain ⟨hchain, hfin⟩ := ih (dequeue_write bs op 2).bs jes2 hrun
        refine ⟨⟨hprev, hcrc, ?_⟩, ?_⟩
        · rw [hlast] at hchain
          exact hchain
        · rw [hlast] at hfin
          simpa [lastCrc] using hfin

/-- C3: every small-write journal entry appended by a sequence of
successful `dequeue_write` dispatches carries `crc32_prev` equal to the
previous appended entry's `crc32` (the first to the starting
`journal.crc32_last`), its own `crc32` is the CRC of the entry itself,
and `journal.crc32_last` ends as the last entry's `crc32` — the chain
reflects dispatch order exactly. -/
theorem c3_crc32_chain (bs : blockstore) (ops : List blockstore_operation)
    (h : (runSmallWrites bs ops).isSome = true) :
    crcChain bs.journal.crc32_last ((runSmallWrites bs ops).getD (bs, [])).2 ∧
    ((runSmallWrites bs ops).getD (bs, [])).1.journal.crc32_last =
      lastCrc bs.journal.crc32_last ((runSmallWrites bs ops).getD (bs, [])).2 := by
  obtain ⟨⟨bs1, jes⟩, hp⟩ := Option.isSome_iff_exists.mp h
  rw [hp]
  simpa using runSmallWrites_crc_chain bs ops bs1 jes hp

/-- Witness for `c3_crc32_chain`: two concrete small writes dispatched
from `exC3bs` chain their entries to the starting `crc32_last = 77`. -/
theorem c3_crc32_chain_witness :
    crcChain exC3bs.journal.crc32_last ((runSmallWrites exC3bs exC3ops).getD (exC3bs, [])).2 ∧
    ((runSmallWrites exC3bs exC3ops).getD (exC3bs, [])).1.journal.crc32_last =
      lastCrc exC3bs.journal.crc32_last ((runSmallWrites exC3bs exC3ops).getD (exC3bs, [])).2 :=
  c3_crc32_chain exC3bs exC3ops (by decide)

/-- A zero-fill range `(0, n)` zeroes every buffer index below `n`. -/
theorem bufAfter_zero (buf : Nat → Nat) (zs : List (Nat × Nat)) (i n : Nat)
    (hmem : (0, n) ∈ zs) (hi : i < n) : bufAfter buf zs i = 0 := by
  unfold bufAfter
  rw [if_pos]
  exact List.any_eq_true.mpr ⟨(0, n), hmem, by simp [hi]⟩

/-- C7: a read of an oid with no clean entry and no dirty entries, and
likewise any read whose dispatch pass queued no kernel I/O (every range
zero-filled or unallocated — `read_vec` empty), completes inline: the
callback runs with `retval = len`, `dequeue_read` returns 1, and the
whole requested range of the output buffer is zero-filled. -/
theorem c7_inline_zero_fill (bs : blockstore) (op : blockstore_operation) (budget : Nat)
    (res : read_result) (h : dequeue_read bs op budget = res) :
    ((findClean bs.object_db op.oid = none ∧ dirtyDescRun bs.dirty_db op.oid = []) →
      res.ret = 1 ∧ res.calledBack = true ∧ res.op.retval = (op.len : Int) ∧
      ∀ buf : Nat → Nat, ∀ i, i < op.len → bufAfter buf res.zeros i = 0) ∧
    (res.ret = 1 → res.rv = [] →
      res.calledBack = true ∧ res.op.retval = (op.len : Int) ∧
      ∀ buf : Nat → Nat, ∀ i, i < op.len → bufAfter buf res.zeros i = 0) := by
  unfold dequeue_read at h
  dsimp only at h
  split at h
  case isTrue hcond =>
    subst h
    constructor
    · intro _
      refine ⟨rfl, rfl, rfl, fun buf i hi => bufAfter_zero buf _ i op.len (by simp) hi⟩
    · intro _ _
      refine ⟨rfl, rfl, fun buf i hi => bufAfter_zero buf _ i op.len (by simp) hi⟩
  case isFalse hcond =>
    split at h
    case h_1 =>
      subst h
      constructor
      · rintro ⟨hc, hr⟩
        exact absurd ⟨by simp [hc], by simp [hr]⟩ hcond
      · intro h1
        simp at h1
    case h_2 =>
      subst h
      constructor
      · rintro ⟨hc, hr⟩
        exact absurd ⟨by simp [hc], by simp [hr]⟩ hcond
      · intro h1
        simp at h1
    case h_3 plan hplan =>
      split at h
      case isTrue hrv =>
        subst h
        constructor
        · intro _
          refine ⟨rfl, rfl, rfl, fun buf i hi =>
            bufAfter_zero buf _ i op.len (by simp) hi⟩
        · intro _ _
          refine ⟨rfl, rfl, fun buf i hi =>
            bufAfter_zero buf _ i op.len (by simp) hi⟩
      case isFalse hrv =>
        subst h
        constructor
        · rintro ⟨hc, hr⟩
          exact absurd ⟨by simp [hc], by simp [hr]⟩ hcond
        · intro _ hrvres
          dsimp only at hrvres
          rw [hrvres] at hrv
          simp at hrv

/-- Witness for `c7_inline_zero_fill` at `exC7bs` (no clean entry, empty
dirty index): the read completes inline with `retval = len` and a
zero-filled buffer. -/
theorem c7_inline_zero_fill_witness :
    (dequeue_read exC7bs exReadOp 5).ret = 1 ∧
    (dequeue_read exC7bs exReadOp 5).calledBack = true ∧
    (dequeue_read exC7bs exReadOp 5).op.retval = (exReadOp.len : Int) ∧
    ∀ buf : Nat → Nat, ∀ i, i < exReadOp.len →
      bufAfter buf (dequeue_read exC7bs exReadOp 5).zeros i = 0 :=
  (c7_inline_zero_fill exC7bs exReadOp 5 (dequeue_read exC7bs exReadOp 5) rfl).1
    ⟨by decide, by decide⟩

/-- Membership after sorted insertion into the read vector. -/
theorem mem_rvInsert (rv : List read_vec_entry) (e f : read_vec_entry) :
    f ∈ rvInsert rv e ↔ f ∈ rv ∨ f = e := by
  induction rv with
  | nil => simp [rvInsert]
  | cons g rest ih =>
    unfold rvInsert
    split
    · constructor
      · intro hm
        rcases List.mem_cons.mp hm with rfl | hm2
        · exact Or.inr rfl
        · exact Or.inl hm2
      · rintro (hm | rfl)
        · exact List.mem_cons_of_mem _ hm
        · exact List.mem_cons_self _ _
    · constructor
      · intro hm
        rcases List.mem_cons.mp hm with rfl | hm2
        · exact Or.inl (List.mem_cons_self _ _)
        · rcases ih.mp hm2 with hm3 | rfl
          · exact Or.inl (List.mem_cons_of_mem _ hm3)
          · exact Or.inr rfl
      · rintro (hm | rfl)
        · rcases List.mem_cons.mp hm with rfl | hm2
          · exact List.mem_cons_self _ _
          · exact List.mem_cons_of_mem _ (ih.mpr (Or.inl hm2))
        · exact List.mem_cons_of_mem _ (ih.mpr (Or.inr rfl))

/-- Source coverage after sorted insertion. -/
theorem coversSrc_rvInsert (rv : List read_vec_entry) (e : read_vec_entry)
    (o : Nat) (s : read_source) :
    coversSrc (rvInsert rv e) o s ↔
      coversSrc rv o s ∨ (e.start ≤ o ∧ o < e.start + e.len ∧ e.src = s) := by
  unfold coversSrc
  constructor
  · rintro ⟨f, hf, h1, h2, h3⟩
    rcases (mem_rvInsert rv e f).mp hf with hm | rfl
    · exact Or.inl ⟨f, hm, h1, h2, h3⟩
    · exact Or.inr ⟨h1, h2, h3⟩
  · rintro (⟨f, hm, h1, h2, h3⟩ | ⟨h1, h2, h3⟩)
    · exact ⟨f, (mem_rvInsert rv e f).mpr (Or.inl hm), h1, h2, h3⟩
    · exact ⟨e, (mem_rvInsert rv e e).mpr (Or.inr rfl), h1, h2, h3⟩

/-- Plain coverage after sorted insertion. -/
theorem covered_rvInsert (rv : List read_vec_entry) (e : read_vec_entry) (o : Nat) :
    covered (rvInsert rv e) o ↔ covered rv o ∨ (e.start ≤ o ∧ o < e.start + e.len) := by
  unfold covered
  constructor
  · rintro ⟨f, hf, h1, h2⟩
    rcases (mem_rvInsert rv e f).mp hf with hm | rfl
    · exact Or.inl ⟨f, hm, h1, h2⟩
    · exact Or.inr ⟨h1, h2⟩
  · rintro (⟨f, hm, h1, h2⟩ | ⟨h1, h2⟩)
    · exact ⟨f, (mem_rvInsert rv e f).mpr (Or.inl hm), h1, h2⟩
    · exact ⟨e, (mem_rvInsert rv e e).mpr (Or.inr rfl), h1, h2⟩

/-- The tail of a chained read vector is chained. -/
theorem RVChain_tail {e : read_vec_entry} {rest : List read_vec_entry}
    (h : RVChain (e :: rest)) : RVChain rest := by
  cases rest with
  | nil => trivial
  | cons f r2 => exact h.2

/-- In a chained read vector, the head ends before every later entry
starts. -/
theorem RVChain_head_le {e : read_vec_entry} {rest : List read_vec_entry}
    (h : RVChain (e :: rest)) : ∀ f ∈ rest, e.start + e.len ≤ f.start := by
  induction rest generalizing e with
  | nil => intro f hf; cases hf
  | cons g r2 ih =>
    intro f hf
    rcases List.mem_cons.mp hf with rfl | hf2
    · exact h.1
    · have hg := ih (e := g) h.2 f hf2
      have := h.1
      omega

/-- Inserting an entry disjoint from every existing entry preserves the
chain. -/
theorem rvChain_insert (rv : List read_vec_entry) (e : read_vec_entry)
    (hchain : RVChain rv) (hepos : 0 < e.len)
    (hdisj : ∀ f ∈ rv, f.start + f.len ≤ e.start ∨ e.start + e.len ≤ f.start) :
    RVChain (rvInsert rv e) := by
  induction rv with
  | nil => trivial
  | cons g rest ih =>
    unfold rvInsert
    split
    case isTrue hlt =>
      have hd := hdisj g (List.mem_cons_self _ _)
      have hge : e.start + e.len ≤ g.start := by
        rcases hd with hd | hd
        · omega
        · exact hd
      exact ⟨hge, hchain⟩
    case isFalse hlt =>
      have hrest := ih (RVChain_tail hchain)
        (fun f hf => hdisj f (List.mem_cons_of_mem _ hf))
      cases hr : rvInsert rest e with
      | nil => trivial
      | cons f r2 =>
        refine ⟨?_, hr ▸ hrest⟩
        have hf : f ∈ rvInsert rest e := by rw [hr]; exact List.mem_cons_self _ _
        rcases (mem_rvInsert rest e f).mp hf with hm | rfl
        · exact RVChain_head_le hchain f hm
        · have hd := hdisj g (List.mem_cons_self _ _)
          rcases hd with hd | hd
          · exact hd
          · omega

/-- Inserting a positive-length entry preserves positivity. -/
theorem allPos_insert (rv : List read_vec_entry) (e : read_vec_entry)
    (hpos : AllPos rv) (he : 0 < e.len) : AllPos (rvInsert rv e) := by
  intro f hf
  rcases (mem_rvInsert rv e f).mp hf with hm | rfl
  · exact hpos f hm
  · exact he

/-- A range none of whose points is covered is interval-disjoint from
every (positive-length) read-vector entry. -/
theorem not_covered_disjoint (rv : List read_vec_entry) (a b : Nat)
    (hab : a < b) (hfresh : ∀ o, a ≤ o → o < b → ¬ covered rv o) (hpos : AllPos rv) :
    ∀ f ∈ rv, f.start + f.len ≤ a ∨ b ≤ f.start := by
  intro f hf
  by_contra hcon
  push_neg at hcon
  obtain ⟨h1, h2⟩ := hcon
  have hflen := hpos f hf
  refine hfresh (max a f.start) (le_max_left _ _) ?_ ⟨f, hf, le_max_right _ _, ?_⟩
  · omega
  · omega

/-- Every collected gap starts at or after the current position. -/
theorem collectGaps_fst_ge (l : List read_vec_entry) (cs ie : Nat)
    (hchain : RVChain l) (hends : ∀ f ∈ l, cs ≤ f.start + f.len) :
    ∀ g ∈ collectGaps l cs ie, cs ≤ g.1 := by
  induction l generalizing cs with
  | nil =>
    intro g hg
    simp only [collectGaps, List.mem_singleton] at hg
    subst hg
    exact le_refl cs
  | cons e rest ih =>
    intro g hg
    unfold collectGaps at hg
    split at hg
    · rcases List.mem_cons.mp hg with rfl | hg2
      · exact le_refl cs
      · have he : cs ≤ e.start + e.len := hends e (List.mem_cons_self _ _)
        have h2 : e.start + e.len ≤ g.1 :=
          ih (e.start + e.len) (RVChain_tail hchain)
            (fun f hf => by have := RVChain_head_le hchain f hf; omega) g hg2
        omega
    · rcases List.mem_singleton.mp hg with rfl
      exact le_refl cs

/-- Every collected gap ends at or before `item_end`. -/
theorem collectGaps_snd_le (l : List read_vec_entry) (cs ie : Nat) :
    ∀ g ∈ collectGaps l cs ie, g.2 ≤ ie := by
  induction l generalizing cs with
  | nil =>
    intro g hg
    simp only [collectGaps, List.mem_singleton] at hg
    subst hg
    exact le_refl ie
  | cons e rest ih =>
    intro g hg
    unfold collectGaps at hg
    split at hg
    case isTrue hlt =>
      rcases List.mem_cons.mp hg with rfl | hg2
      · exact le_of_lt hlt
      · exact ih (e.start + e.len) g hg2
    case isFalse hlt =>
      rcases List.mem_singleton.mp hg with rfl
      exact le_refl ie

/-- Collected gaps are ordered: every gap ends before every later gap
starts. -/
theorem collectGaps_pairwise (l : List read_vec_entry) (cs ie : Nat)
    (hchain : RVChain l) (hends : ∀ f ∈ l, cs ≤ f.start + f.len) :
    List.Pairwise (fun g g2 => g.2 ≤ g2.1) (collectGaps l cs ie) := by
  induction l generalizing cs with
  | nil => simp [collectGaps]
  | cons e rest ih =>
    unfold collectGaps
    split
    case isTrue hlt =>
      refine List.Pairwise.cons ?_ ?_
      · intro g hg
        have : e.start + e.len ≤ g.1 :=
          collectGaps_fst_ge rest (e.start + e.len) ie (RVChain_tail hchain)
            (fun f hf => by have := RVChain_head_le hchain f hf; omega) g hg
        omega
      · exact ih (e.start + e.len) (RVChain_tail hchain)
          (fun f hf => by have := RVChain_head_le hchain f hf; omega)
    case isFalse hlt =>
      simp

/-- The collected gaps are exactly the points of `[cs, ie)` not covered by
the walked entries. -/
theorem collectGaps_mem_iff (l : List read_vec_entry) (cs ie o : Nat)
    (hchain : RVChain l) (hends : ∀ f ∈ l, cs ≤ f.start + f.len) :
    (∃ g ∈ collectGaps l cs ie, g.1 ≤ o ∧ o < g.2) ↔
      (cs ≤ o ∧ o < ie ∧ ¬ covered l o) := by
  induction l generalizing cs with
  | nil =>
    simp only [collectGaps, List.mem_singleton, covered]
    constructor
    · rintro ⟨g, rfl, h1, h2⟩
      exact ⟨h1, h2, by rintro ⟨f, hf, h3, h4⟩; cases hf⟩
    · rintro ⟨h1, h2, h3⟩
      exact ⟨(cs, ie), rfl, h1, h2⟩
  | cons e rest ih =>
    have hhead : cs ≤ e.start + e.len := hends e (List.mem_cons_self _ _)
    have hrestends : ∀ f ∈ rest, e.start + e.len ≤ f.start + f.len :=
      fun f hf => by have := RVChain_head_le hchain f hf; omega
    unfold collectGaps
    split
    case isTrue hlt =>
      constructor
      · rintro ⟨g, hg, h1, h2⟩
        rcases List.mem_cons.mp hg with rfl | hg2
        · -- the pre-entry gap (cs, e.start)
          refine ⟨h1, lt_trans h2 hlt, ?_⟩
          rintro ⟨f, hf, h3, h4⟩
          rcases List.mem_cons.mp hf with rfl | hf2
          · omega
          · have := RVChain_head_le hchain f hf2
            omega
        · have hih := (ih (e.start + e.len) (RVChain_tail hchain)
            (fun f hf => by have := hrestends f hf; omega)).mp ⟨g, hg2, h1, h2⟩
          obtain ⟨ha, hb, hc⟩ := hih
          refine ⟨by omega, hb, ?_⟩
          rintro ⟨f, hf, h3, h4⟩
          rcases List.mem_cons.mp hf with rfl | hf2
          · omega
          · exact hc ⟨f, hf2, h3, h4⟩
      · rintro ⟨h1, h2, h3⟩
        by_cases ho : o < e.start
        · refine ⟨(cs, e.start), List.mem_cons_self _ _, h1, ho⟩
        · push_neg at ho
          have hne : ¬ (e.start ≤ o ∧ o < e.start + e.len) := by
            intro hcon
            exact h3 ⟨e, List.mem_cons_self _ _, hcon.1, hcon.2⟩
          have hoe : e.start + e.len ≤ o := by omega
          have hnc : ¬ covered rest o := by
            intro hcon
            obtain ⟨f, hf, h4, h5⟩ := hcon
            exact h3 ⟨f, List.mem_cons_of_mem _ hf, h4, h5⟩
          obtain ⟨g, hg, h4, h5⟩ := (ih (e.start + e.len) (RVChain_tail hchain)
            (fun f hf => by have := hrestends f hf; omega)).mpr ⟨hoe, h2, hnc⟩
          exact ⟨g, List.mem_cons_of_mem _ hg, h4, h5⟩
    case isFalse hlt =>
      push_neg at hlt
      constructor
      · rintro ⟨g, hg, h1, h2⟩
        rcases List.mem_singleton.mp hg with rfl
        refine ⟨h1, h2, ?_⟩
        rintro ⟨f, hf, h3, h4⟩
        rcases List.mem_cons.mp hf with rfl | hf2
        · omega
        · have := RVChain_head_le hchain f hf2
          omega
      · rintro ⟨h1, h2, h3⟩
        exact ⟨(cs, ie), List.mem_singleton.mpr rfl, h1, h2⟩

/-- A chained read vector stays chained after dropping a prefix. -/
theorem RVChain_drop (rv : List read_vec_entry) (n : Nat) (h : RVChain rv) :
    RVChain (rv.drop n) := by
  induction n generalizing rv with
  | zero => exact h
  | succ m ih =>
    cases rv with
    | nil => trivial
    | cons e rest =>
      rw [List.drop_succ_cons]
      exact ih rest (RVChain_tail h)

/-- In a chained read vector, earlier entries end before later entries
start. -/
theorem RVChain_take_drop (rv : List read_vec_entry) (n : Nat) (h : RVChain rv) :
    ∀ f ∈ rv.take n, ∀ g ∈ rv.drop n, f.start + f.len ≤ g.start := by
  induction n generalizing rv with
  | zero => intro f hf; cases hf
  | succ m ih =>
    cases rv with
    | nil => intro f hf; cases hf
    | cons e rest =>
      intro f hf g hg
      rw [List.take_succ_cons] at hf
      rw [List.drop_succ_cons] at hg
      rcases List.mem_cons.mp hf with rfl | hf2
      · exact RVChain_head_le h g (List.mem_of_mem_drop hg)
      · exact ih rest (RVChain_tail h) f hf2 g hg
  
/-- `lowerBoundIdx` never exceeds the length. -/
theorem lowerBoundIdx_le (rv : List read_vec_entry) (k : Nat) :
    lowerBoundIdx rv k ≤ rv.length := by
  unfold lowerBoundIdx
  exact List.findIdx_le_length _

/-- Entries before the lower bound start strictly below the key. -/
theorem lowerBoundIdx_take (rv : List read_vec_entry) (k : Nat) :
    ∀ f ∈ rv.take (lowerBoundIdx rv k), f.start < k := by
  intro f hf
  rw [List.mem_take_iff_getElem] at hf
  obtain ⟨i, hi, hget⟩ := hf
  have hlt : i < lowerBoundIdx rv k := lt_of_lt_of_le hi (min_le_left _ _)
  unfold lowerBoundIdx at hlt
  have hp := List.not_of_lt_findIdx hlt
  simp only [decide_eq_false_iff_not, not_le] at hp
  rw [← hget]
  exact hp

/-- The entry at the lower bound (when in range) starts at or above the
key. -/
theorem lowerBoundIdx_get (rv : List read_vec_entry) (k : Nat)
    (h : lowerBoundIdx rv k < rv.length) :
    k ≤ (rv.get ⟨lowerBoundIdx rv k, h⟩).start := by
  unfold lowerBoundIdx at h ⊢
  have hp := List.findIdx_getElem (w := h)
  simpa using hp

/-- Ends of a chained list are at least `cs` once the head's end is. -/
theorem chain_ends_ge (l : List read_vec_entry) (cs : Nat) (hchain : RVChain l)
    (hhead : ∀ e ∈ l.head?, cs ≤ e.start + e.len) :
    ∀ f ∈ l, cs ≤ f.start + f.len := by
  cases l with
  | nil => intro f hf; cases hf
  | cons e rest =>
    intro f hf
    have he : cs ≤ e.start + e.len := hhead e rfl
    rcases List.mem_cons.mp hf with rfl | hf2
    · exact he
    · have := RVChain_head_le hchain f hf2
      omega

/-- `adjustedIdx` never exceeds the length. -/
theorem adjustedIdx_le (rv : List read_vec_entry) (cs : Nat) :
    adjustedIdx rv cs ≤ rv.length := by
  unfold adjustedIdx
  dsimp only
  have hle := lowerBoundIdx_le rv cs
  split
  · exact hle
  · split
    · split
      · exact hle
      · omega
    · exact hle

/-- Case analysis of the iterator adjustment: either the lower bound is
kept (and any in-range predecessor ends at or before `cs`), or the
iterator steps back one to a predecessor that still overlaps `cs`. -/
theorem adjustedIdx_spec (rv : List read_vec_entry) (cs : Nat) :
    (adjustedIdx rv cs = lowerBoundIdx rv cs ∧
      ∀ h : lowerBoundIdx rv cs - 1 < rv.length, 0 < lowerBoundIdx rv cs →
        (rv.get ⟨lowerBoundIdx rv cs - 1, h⟩).start +
          (rv.get ⟨lowerBoundIdx rv cs - 1, h⟩).len ≤ cs) ∨
    (0 < lowerBoundIdx rv cs ∧ adjustedIdx rv cs = lowerBoundIdx rv cs - 1 ∧
      ∀ h : lowerBoundIdx rv cs - 1 < rv.length,
        cs < (rv.get ⟨lowerBoundIdx rv cs - 1, h⟩).start +
          (rv.get ⟨lowerBoundIdx rv cs - 1, h⟩).len) := by
  unfold adjustedIdx
  dsimp only
  split
  case isTrue h0 =>
    simp only [beq_iff_eq] at h0
    exact Or.inl ⟨rfl, fun h hpos => absurd hpos (by omega)⟩
  case isFalse h0 =>
    simp only [beq_iff_eq] at h0
    cases hget : rv.get? (lowerBoundIdx rv cs - 1) with
    | none =>
      have hn := List.get?_eq_none.mp hget
      exact Or.inl ⟨rfl, fun h hpos => absurd h (by omega)⟩
    | some e =>
      obtain ⟨hi1, hgete⟩ := List.get?_eq_some.mp hget
      dsimp only
      split
      case isTrue hend =>
        refine Or.inl ⟨rfl, fun h hpos => ?_⟩
        rw [hgete]
        exact hend
      case isFalse hend =>
        refine Or.inr ⟨by omega, rfl, fun h => ?_⟩
        rw [hgete]
        omega

/-- Every entry before the adjusted iterator ends at or before `cs`. -/
theorem adjustedIdx_take (rv : List read_vec_entry) (cs : Nat) (hchain : RVChain rv) :
    ∀ f ∈ rv.take (adjustedIdx rv cs), f.start + f.len ≤ cs := by
  intro f hf
  have hle := lowerBoundIdx_le rv cs
  rcases adjustedIdx_spec rv cs with ⟨hadj, hpred⟩ | ⟨hpos, hadj, hpred⟩
  · rw [hadj] at hf
    rw [List.mem_take_iff_getElem] at hf
    obtain ⟨j, hj, hget2⟩ := hf
    have hjl : j < lowerBoundIdx rv cs := lt_of_lt_of_le hj (min_le_left _ _)
    have hpos : 0 < lowerBoundIdx rv cs := by omega
    have hi1 : lowerBoundIdx rv cs - 1 < rv.length := by omega
    have hendp := hpred hi1 hpos
    by_cases hj2 : j = lowerBoundIdx rv cs - 1
    · rw [← hget2]
      subst hj2
      simpa using hendp
    · have hfmem : rv.get ⟨j, by omega⟩ ∈ rv.take (lowerBoundIdx rv cs - 1) := by
        rw [List.mem_take_iff_getElem]
        exact ⟨j, by omega, rfl⟩
      have hemem : rv.get ⟨lowerBoundIdx rv cs - 1, hi1⟩ ∈
          rv.drop (lowerBoundIdx rv cs - 1) := by
        rw [List.drop_eq_getElem_cons hi1]
        simp only [List.get_eq_getElem]
        exact List.mem_cons_self _ _
      have hchainpart := RVChain_take_drop rv (lowerBoundIdx rv cs - 1) hchain
        (rv.get ⟨j, by omega⟩) hfmem (rv.get ⟨lowerBoundIdx rv cs - 1, hi1⟩) hemem
      rw [← hget2]
      simp only [List.get_eq_getElem] at hchainpart hendp
      omega
  · rw [hadj] at hf
    rw [List.mem_take_iff_getElem] at hf
    obtain ⟨j, hj, hget2⟩ := hf
    have hjl : j < lowerBoundIdx rv cs - 1 := lt_of_lt_of_le hj (min_le_left _ _)
    have hi1 : lowerBoundIdx rv cs - 1 < rv.length := by
      have := lt_of_lt_of_le hj (min_le_right _ _)
      omega
    have hfmem : rv.get ⟨j, by omega⟩ ∈ rv.take (lowerBoundIdx rv cs - 1) := by
      rw [List.mem_take_iff_getElem]
      exact ⟨j, by omega, rfl⟩
    have hemem : rv.get ⟨lowerBoundIdx rv cs - 1, hi1⟩ ∈
        rv.drop (lowerBoundIdx rv cs - 1) := by
      rw [List.drop_eq_getElem_cons hi1]
      simp only [List.get_eq_getElem]
      exact List.mem_cons_self _ _
    have hchainpart := RVChain_take_drop rv (lowerBoundIdx rv cs - 1) hchain
      (rv.get ⟨j, by omega⟩) hfmem (rv.get ⟨lowerBoundIdx rv cs - 1, hi1⟩) hemem
    have hstart : (rv.get ⟨lowerBoundIdx rv cs - 1, hi1⟩).start < cs := by
      refine lowerBoundIdx_take rv cs _ ?_
      rw [List.mem_take_iff_getElem]
      refine ⟨lowerBoundIdx rv cs - 1, by omega, by simp⟩
    rw [← hget2]
    simp only [List.get_eq_getElem] at hchainpart hstart
    omega

/-- Every entry from the adjusted iterator on ends at or after `cs`. -/
theorem adjustedIdx_drop (rv : List read_vec_entry) (cs : Nat) (hchain : RVChain rv) :
    ∀ f ∈ rv.drop (adjustedIdx rv cs), cs ≤ f.start + f.len := by
  have hdchain : RVChain (rv.drop (adjustedIdx rv cs)) :=
    RVChain_drop rv (adjustedIdx rv cs) hchain
  refine chain_ends_ge _ cs hdchain ?_
  intro e he
  have hlen : adjustedIdx rv cs < rv.length := by
    by_contra hcon
    push_neg at hcon
    rw [List.drop_eq_nil_of_le hcon] at he
    cases he
  rw [List.drop_eq_getElem_cons hlen] at he
  simp only [List.head?_cons, Option.mem_def, Option.some.injEq] at he
  subst he
  have hle := lowerBoundIdx_le rv cs
  rcases adjustedIdx_spec rv cs with ⟨hadj, hpred⟩ | ⟨hpos, hadj, hpred⟩
  · simp only [hadj] at hlen ⊢
    have hstart := lowerBoundIdx_get rv cs hlen
    simp only [List.get_eq_getElem] at hstart
    omega
  · simp only [hadj] at hlen ⊢
    have hp := hpred hlen
    simp only [List.get_eq_getElem] at hp
    omega

/-- Specification of the gap-push fold for a non-deletion source: on
success it inserts exactly the (nonempty) gaps, each carrying the source,
and preserves the read-vector invariants. -/
theorem pushGaps_normal (op : blockstore_operation) (src : read_source)
    (gs : List (Nat × Nat)) (acc acc2 : read_plan)
    (hdel : isZeroFillDel src.state = false)
    (hchain : RVChain acc.rv) (hpos : AllPos acc.rv)
    (hfresh : ∀ g ∈ gs, ∀ o, g.1 ≤ o → o < g.2 → ¬ covered acc.rv o)
    (hpw : List.Pairwise (fun g g2 => g.2 ≤ g2.1) gs)
    (h : pushGaps op src gs acc = .ok acc2) :
    RVChain acc2.rv ∧ AllPos acc2.rv ∧
    ∀ o s, coversSrc acc2.rv o s ↔
      coversSrc acc.rv o s ∨ (s = src ∧ ∃ g ∈ gs, g.1 ≤ o ∧ o < g.2) := by
  induction gs generalizing acc with
  | nil =>
    unfold pushGaps at h
    simp only [Except.ok.injEq] at h
    subst h
    refine ⟨hchain, hpos, fun o s => ?_⟩
    simp
  | cons g rest ih =>
    unfold pushGaps at h
    split at h
    case h_1 w heq => exact Except.noConfusion h
    case h_2 acc1 heq =>
      unfold fulfill_read_push at heq
      split at heq
      case isFalse hgap =>
        push_neg at hgap
        simp only [Except.ok.injEq] at heq
        subst heq
        have hres := ih acc hchain hpos
          (fun g2 hg2 => hfresh g2 (List.mem_cons_of_mem _ hg2))
          (List.Pairwise.of_cons hpw) h
        refine ⟨hres.1, hres.2.1, fun o s => ?_⟩
        rw [hres.2.2 o s]
        constructor
        · rintro (hc | ⟨rfl, g2, hg2, h1, h2⟩)
          · exact Or.inl hc
          · exact Or.inr ⟨rfl, g2, List.mem_cons_of_mem _ hg2, h1, h2⟩
        · rintro (hc | ⟨rfl, g2, hg2, h1, h2⟩)
          · exact Or.inl hc
          · rcases List.mem_cons.mp hg2 with rfl | hg3
            · omega
            · exact Or.inr ⟨rfl, g2, hg3, h1, h2⟩
      case isTrue hgap =>
        split at heq
        case isTrue => exact Except.noConfusion heq
        case isFalse hIF =>
          split at heq
          case isTrue hd => exact absurd hd (by simp [isZeroFillDel] at hdel ⊢; tauto)
          case isFalse hd =>
            split at heq
            case isTrue => exact Except.noConfusion heq
            case isFalse hbud =>
              simp only [Except.ok.injEq] at heq
              subst heq
              -- the inserted entry
              have hdisj := not_covered_disjoint acc.rv g.1 g.2 hgap
                (hfresh g (List.mem_cons_self _ _)) hpos
              have hchain1 : RVChain (rvInsert acc.rv
                  { start := g.1, len := g.2 - g.1, src := src }) := by
                refine rvChain_insert _ _ hchain (by simp; omega) ?_
                intro f hf
                have := hdisj f hf
                simp only
                omega
              have hpos1 : AllPos (rvInsert acc.rv
                  { start := g.1, len := g.2 - g.1, src := src }) :=
                allPos_insert _ _ hpos (by simp; omega)
              have hfresh1 : ∀ g2 ∈ rest, ∀ o, g2.1 ≤ o → o < g2.2 →
                  ¬ covered (rvInsert acc.rv
                    { start := g.1, len := g.2 - g.1, src := src }) o := by
                intro g2 hg2 o h1 h2 hcov
                rcases (covered_rvInsert _ _ o).mp hcov with hcov2 | hcov3
                · exact hfresh g2 (List.mem_cons_of_mem _ hg2) o h1 h2 hcov2
                · have hord := List.rel_of_pairwise_cons hpw hg2
                  simp only at hcov3
                  omega
              have hres := ih _ hchain1 hpos1 hfresh1 (List.Pairwise.of_cons hpw) h
              refine ⟨hres.1, hres.2.1, fun o s => ?_⟩
              rw [hres.2.2 o s, coversSrc_rvInsert]
              simp only
              constructor
              · rintro ((hc | ⟨h1, h2, rfl⟩) | ⟨rfl, g2, hg2, h1, h2⟩)
                · exact Or.inl hc
                · exact Or.inr ⟨rfl, g, List.mem_cons_self _ _, h1, by omega⟩
                · exact Or.inr ⟨rfl, g2, List.mem_cons_of_mem _ hg2, h1, h2⟩
              · rintro (hc | ⟨rfl, g2, hg2, h1, h2⟩)
                · exact Or.inl (Or.inl hc)
                · rcases List.mem_cons.mp hg2 with rfl | hg3
                  · exact Or.inl (Or.inr ⟨h1, by omega, rfl⟩)
                  · exact Or.inr ⟨rfl, g2, hg3, h1, h2⟩

/-- Specification of the gap-push fold for an `IN_FLIGHT` source: it can
only succeed when every gap is empty, and then changes nothing. -/
theorem pushGaps_inflight (op : blockstore_operation) (src : read_source)
    (gs : List (Nat × Nat)) (acc acc2 : read_plan)
    (hIF : (src.state == ST_IN_FLIGHT) = true)
    (h : pushGaps op src gs acc = .ok acc2) :
    acc2 = acc ∧ ∀ g ∈ gs, g.2 ≤ g.1 := by
  induction gs generalizing acc with
  | nil =>
    unfold pushGaps at h
    simp only [Except.ok.injEq] at h
    subst h
    exact ⟨rfl, by simp⟩
  | cons g rest ih =>
    unfold pushGaps at h
    split at h
    case h_1 w heq => exact Except.noConfusion h
    case h_2 acc1 heq =>
      unfold fulfill_read_push at heq
      split at heq
      case isFalse hgap =>
        push_neg at hgap
        simp only [Except.ok.injEq] at heq
        subst heq
        obtain ⟨h1, h2⟩ := ih acc h
        refine ⟨h1, fun g2 hg2 => ?_⟩
        rcases List.mem_cons.mp hg2 with rfl | hg3
        · exact hgap
        · exact h2 g2 hg3
      case isTrue hgap =>
        exact Except.noConfusion heq

/-- Coverage by the dropped suffix implies coverage by the full vector. -/
theorem covered_of_covered_drop (rv : List read_vec_entry) (n o : Nat)
    (h : covered (rv.drop n) o) : covered rv o := by
  obtain ⟨f, hf, h1, h2⟩ := h
  exact ⟨f, List.mem_of_mem_drop hf, h1, h2⟩

/-- For offsets at or past `cs`, coverage by the full vector is coverage
by the suffix from the adjusted iterator. -/
theorem covered_adjusted_iff (rv : List read_vec_entry) (cs o : Nat)
    (hchain : RVChain rv) (hcs : cs ≤ o) :
    covered rv o ↔ covered (rv.drop (adjustedIdx rv cs)) o := by
  constructor
  · rintro ⟨f, hf, h1, h2⟩
    rw [← List.take_append_drop (adjustedIdx rv cs) rv] at hf
    rcases List.mem_append.mp hf with hf2 | hf2
    · have := adjustedIdx_take rv cs hchain f hf2
      omega
    · exact ⟨f, hf2, h1, h2⟩
  · exact covered_of_covered_drop rv _ o

/-- Specification of `fulfill_read` for a non-deletion source: on success
the read vector gains the source exactly on the clamped range not already
covered, and the invariants are preserved. -/
theorem fulfill_read_normal (op : blockstore_operation) (src : read_source)
    (acc acc2 : read_plan)
    (hdel : isZeroFillDel src.state = false)
    (hchain : RVChain acc.rv) (hpos : AllPos acc.rv)
    (h : fulfill_read op src acc = .ok acc2) :
    RVChain acc2.rv ∧ AllPos acc2.rv ∧
    ∀ o s, coversSrc acc2.rv o s ↔
      coversSrc acc.rv o s ∨ (s = src ∧ inClamp op src o ∧ ¬ covered acc.rv o) := by
  unfold fulfill_read at h
  dsimp only at h
  split at h
  case isFalse hguard =>
    simp only [Except.ok.injEq] at h
    subst h
    refine ⟨hchain, hpos, fun o s => ?_⟩
    have hnc : ¬ inClamp op src o := by
      unfold inClamp
      intro hcon
      exact hguard ⟨by omega, by omega⟩
    simp [hnc]
  case isTrue hguard =>
    have hsubchain := RVChain_drop acc.rv
      (adjustedIdx acc.rv (max src.item_start op.offset)) hchain
    have hsubends := adjustedIdx_drop acc.rv (max src.item_start op.offset) hchain
    have hfresh : ∀ g ∈ collectGaps
        (acc.rv.drop (adjustedIdx acc.rv (max src.item_start op.offset)))
        (max src.item_start op.offset) (min src.item_end (op.offset + op.len)),
        ∀ o, g.1 ≤ o → o < g.2 → ¬ covered acc.rv o := by
      intro g hg o h1 h2 hcov
      have hmem := (collectGaps_mem_iff _ _ _ o hsubchain hsubends).mp ⟨g, hg, h1, h2⟩
      obtain ⟨ha, hb, hc⟩ := hmem
      exact hc ((covered_adjusted_iff acc.rv _ o hchain ha).mp hcov)
    have hpw := collectGaps_pairwise _ (max src.item_start op.offset)
      (min src.item_end (op.offset + op.len)) hsubchain hsubends
    obtain ⟨h1, h2, h3⟩ := pushGaps_normal op src _ acc acc2 hdel hchain hpos hfresh hpw h
    refine ⟨h1, h2, fun o s => ?_⟩
    rw [h3 o s]
    constructor
    · rintro (hc | ⟨rfl, hex⟩)
      · exact Or.inl hc
      · have hmem := (collectGaps_mem_iff _ _ _ o hsubchain hsubends).mp hex
        obtain ⟨ha, hb, hc⟩ := hmem
        refine Or.inr ⟨rfl, ?_, ?_⟩
        · unfold inClamp
          omega
        · intro hcov
          exact hc ((covered_adjusted_iff acc.rv _ o hchain ha).mp hcov)
    · rintro (hc | ⟨heq, hclamp, hncov⟩)
      · exact Or.inl hc
      · unfold inClamp at hclamp
        have ha : max src.item_start op.offset ≤ o := by omega
        have hb : o < min src.item_end (op.offset + op.len) := by omega
        refine Or.inr ⟨heq, (collectGaps_mem_iff _ _ _ o hsubchain hsubends).mpr
          ⟨ha, hb, ?_⟩⟩
        intro hcov
        exact hncov ((covered_adjusted_iff acc.rv _ o hchain ha).mpr hcov)

/-- Specification of `fulfill_read` for an `IN_FLIGHT` source: it succeeds
only when the whole clamped range is already covered, and then changes
nothing. -/
theorem fulfill_read_inflight (op : blockstore_operation) (src : read_source)
    (acc acc2 : read_plan)
    (hIF : (src.state == ST_IN_FLIGHT) = true)
    (hchain : RVChain acc.rv)
    (h : fulfill_read op src acc = .ok acc2) :
    acc2 = acc ∧ ∀ o, inClamp op src o → covered acc.rv o := by
  unfold fulfill_read at h
  dsimp only at h
  split at h
  case isFalse hguard =>
    simp only [Except.ok.injEq] at h
    subst h
    refine ⟨rfl, fun o hclamp => ?_⟩
    unfold inClamp at hclamp
    exact absurd ⟨by omega, by omega⟩ hguard
  case isTrue hguard =>
    have hsubchain := RVChain_drop acc.rv
      (adjustedIdx acc.rv (max src.item_start op.offset)) hchain
    have hsubends := adjustedIdx_drop acc.rv (max src.item_start op.offset) hchain
    obtain ⟨hacc, hempty⟩ := pushGaps_inflight op src _ acc acc2 hIF h
    refine ⟨hacc, fun o hclamp => ?_⟩
    unfold inClamp at hclamp
    by_contra hncov
    have ha : max src.item_start op.offset ≤ o := by omega
    have hb : o < min src.item_end (op.offset + op.len) := by omega
    obtain ⟨g, hg, h1, h2⟩ := (collectGaps_mem_iff _ _ _ o hsubchain hsubends).mpr
      ⟨ha, hb, fun hcov => hncov ((covered_adjusted_iff acc.rv _ o hchain ha).mpr hcov)⟩
    have := hempty g hg
    omega

/-- Coverage is coverage by some source. -/
theorem covered_iff_exists_src (rv : List read_vec_entry) (o : Nat) :
    covered rv o ↔ ∃ s, coversSrc rv o s := by
  constructor
  · rintro ⟨e, he, h1, h2⟩
    exact ⟨e.src, e, he, h1, h2, rfl⟩
  · rintro ⟨s, e, he, h1, h2, h3⟩
    exact ⟨e, he, h1, h2⟩

/-- Specification of the source fold of `dequeue_read`: on success, each
requested offset is planned from the first source in priority order whose
range covers it. -/
theorem processSources_spec (op : blockstore_operation) (S : List read_source)
    (acc acc2 : read_plan)
    (hS : ∀ s ∈ S, isZeroFillDel s.state = false)
    (hchain : RVChain acc.rv) (hpos : AllPos acc.rv)
    (h : processSources op S acc = .ok acc2) :
    RVChain acc2.rv ∧ AllPos acc2.rv ∧
    ∀ o, op.offset ≤ o → o < op.offset + op.len →
      ∀ s, coversSrc acc2.rv o s ↔
        (coversSrc acc.rv o s ∨ (¬ covered acc.rv o ∧ firstCover S o = some s)) := by
  induction S generalizing acc with
  | nil =>
    unfold processSources at h
    simp only [Except.ok.injEq] at h
    subst h
    refine ⟨hchain, hpos, fun o ho1 ho2 s => ?_⟩
    simp [firstCover]
  | cons s0 rest ih =>
    unfold processSources at h
    split at h
    case h_1 w heq => exact Except.noConfusion h
    case h_2 acc1 heq =>
      by_cases hIF : (s0.state == ST_IN_FLIGHT) = true
      · obtain ⟨hacc, hcov0⟩ := fulfill_read_inflight op s0 acc acc1 hIF hchain heq
        rw [hacc] at h
        obtain ⟨h1, h2, h3⟩ := ih acc (fun s hs => hS s (List.mem_cons_of_mem _ hs))
          hchain hpos h
        refine ⟨h1, h2, fun o ho1 ho2 s => ?_⟩
        rw [h3 o ho1 ho2 s]
        by_cases hsc : srcCovers s0 o = true
        · have hcovered : covered acc.rv o := by
            refine hcov0 o ?_
            unfold srcCovers at hsc
            simp only [Bool.and_eq_true, decide_eq_true_eq] at hsc
            exact ⟨hsc.1, hsc.2, ho1, ho2⟩
          unfold firstCover
          rw [List.find?_cons_of_pos (p := fun s2 => srcCovers s2 o) _ hsc]
          constructor
          · rintro (hc | ⟨hnc, _⟩)
            · exact Or.inl hc
            · exact absurd hcovered hnc
          · rintro (hc | ⟨hnc, _⟩)
            · exact Or.inl hc
            · exact absurd hcovered hnc
        · unfold firstCover
          rw [List.find?_cons_of_neg (p := fun s2 => srcCovers s2 o) _ hsc]
      · have hdel : isZeroFillDel s0.state = false := hS s0 (List.mem_cons_self _ _)
        obtain ⟨h1, h2, h3⟩ := fulfill_read_normal op s0 acc acc1 hdel hchain hpos heq
        obtain ⟨h4, h5, h6⟩ := ih acc1 (fun s hs => hS s (List.mem_cons_of_mem _ hs)) h1 h2 h
        refine ⟨h4, h5, fun o ho1 ho2 s => ?_⟩
        have hcov1 : covered acc1.rv o ↔ covered acc.rv o ∨ inClamp op s0 o := by
          rw [covered_iff_exists_src, covered_iff_exists_src]
          constructor
          · rintro ⟨s2, hs2⟩
            rcases (h3 o s2).mp hs2 with hc | ⟨rfl, hcl, hnc⟩
            · exact Or.inl ⟨s2, hc⟩
            · exact Or.inr hcl
          · rintro (⟨s2, hs2⟩ | hcl)
            · exact ⟨s2, (h3 o s2).mpr (Or.inl hs2)⟩
            · by_cases hc : ∃ s2, coversSrc acc.rv o s2
              · obtain ⟨s2, hs2⟩ := hc
                exact ⟨s2, (h3 o s2).mpr (Or.inl hs2)⟩
              · refine ⟨s0, (h3 o s0).mpr (Or.inr ⟨rfl, hcl, ?_⟩)⟩
                rw [covered_iff_exists_src]
                exact hc
        rw [h6 o ho1 ho2 s]
        by_cases hsc : srcCovers s0 o = true
        · have hclamp : inClamp op s0 o := by
            unfold srcCovers at hsc
            simp only [Bool.and_eq_true, decide_eq_true_eq] at hsc
            exact ⟨hsc.1, hsc.2, ho1, ho2⟩
          unfold firstCover
          rw [List.find?_cons_of_pos (p := fun s2 => srcCovers s2 o) _ hsc]
          constructor
          · rintro (hs2 | ⟨hnc1, _⟩)
            · rcases (h3 o s).mp hs2 with hc | ⟨heq, hcl, hnc⟩
              · exact Or.inl hc
              · exact Or.inr ⟨hnc, by rw [heq]⟩
            · exact absurd (hcov1.mpr (Or.inr hclamp)) hnc1
          · rintro (hc | ⟨hnc, hsome⟩)
            · exact Or.inl ((h3 o s).mpr (Or.inl hc))
            · simp only [Option.some.injEq] at hsome
              exact Or.inl ((h3 o s).mpr (Or.inr ⟨hsome.symm, hclamp, hnc⟩))
        · have hnclamp : ¬ inClamp op s0 o := by
            unfold srcCovers at hsc
            unfold inClamp
            simp only [Bool.and_eq_true, decide_eq_true_eq] at hsc
            intro hcon
            exact hsc ⟨hcon.1, hcon.2.1⟩
          unfold firstCover
          rw [List.find?_cons_of_neg (p := fun s2 => srcCovers s2 o) _ hsc]
          constructor
          · rintro (hs2 | ⟨hnc1, hfind⟩)
            · rcases (h3 o s).mp hs2 with hc | ⟨heq, hcl, hnc⟩
              · exact Or.inl hc
              · exact absurd hcl hnclamp
            · rw [hcov1] at hnc1
              push_neg at hnc1
              exact Or.inr ⟨fun hcov => hnc1.1 hcov, hfind⟩
          · rintro (hc | ⟨hnc, hfind⟩)
            · exact Or.inl ((h3 o s).mpr (Or.inl hc))
            · refine Or.inr ⟨?_, hfind⟩
              rw [hcov1]
              push_neg
              exact ⟨hnc, hnclamp⟩

/-- The dirty loop is the source fold over the qualifying dirty sources. -/
theorem processDirty_eq (op : blockstore_operation)
    (run : List (obj_ver_id × dirty_entry)) (acc : read_plan) :
    processDirty op run acc = processSources op
      (run.filterMap (fun kv => if dirtyQualifies op kv.2 then some (srcOfDirty kv) else none))
      acc := by
  induction run generalizing acc with
  | nil => rfl
  | cons kv rest ih =>
    unfold processDirty
    rw [List.filterMap_cons]
    by_cases hq : dirtyQualifies op kv.2 = true
    · rw [if_pos hq, if_pos hq]
      unfold processSources
      cases fulfill_read op (srcOfDirty kv) acc with
      | error w => rfl
      | ok acc1 => exact ih acc1
    · rw [if_neg hq, if_neg hq]
      exact ih acc

/-- A singleton source fold is one `fulfill_read`. -/
theorem processSources_singleton (op : blockstore_operation) (s : read_source)
    (acc : read_plan) :
    processSources op [s] acc = fulfill_read op s acc := by
  unfold processSources
  cases fulfill_read op s acc with
  | error w => rfl
  | ok acc1 => rfl

/-- The source fold of an appended list is the composition of the folds. -/
theorem processSources_append (op : blockstore_operation) (l1 l2 : List read_source)
    (acc : read_plan) :
    processSources op (l1 ++ l2) acc =
      match processSources op l1 acc with
      | .error w => .error w
      | .ok acc1 => processSources op l2 acc1 := by
  induction l1 generalizing acc with
  | nil => rfl
  | cons s rest ih =>
    rw [List.cons_append]
    cases hfr : fulfill_read op s acc with
    | error w => simp only [processSources, hfr]
    | ok acc1 =>
      simp only [processSources, hfr]
      exact ih acc1

/-- Keys with equal oid compare by version. -/
theorem ovLt_same_oid {a b : obj_ver_id} (h : ovLt a b = true) (heq : a.oid = b.oid) :
    a.version < b.version := by
  obtain ⟨⟨ai, as1⟩, av⟩ := a
  obtain ⟨⟨bi, bs1⟩, bv⟩ := b
  simp only [object_id.mk.injEq] at heq
  simp only [ovLt, oidLt, Bool.or_eq_true, Bool.and_eq_true, decide_eq_true_eq,
    beq_iff_eq, obj_ver_id.mk.injEq, object_id.mk.injEq] at h
  show av < bv
  omega

/-- On a sorted dirty index, the dirty versions visited by `dequeue_read`
come in strictly descending version order. -/
theorem dirtyDescRun_version_desc (db : List (obj_ver_id × dirty_entry)) (oid : object_id)
    (hsort : List.Pairwise (fun a b => ovLt a.1 b.1 = true) db) :
    List.Pairwise (fun a b => b.1.version < a.1.version) (dirtyDescRun db oid) := by
  unfold dirtyDescRun
  cases dirtyIterStart db oid with
  | none => simp
  | some i =>
    have h1 : List.Pairwise (fun a b => ovLt a.1 b.1 = true) (db.take (i + 1)) :=
      hsort.sublist (List.take_sublist _ _)
    have h2 : List.Pairwise (fun a b => ovLt b.1 a.1 = true) ((db.take (i + 1)).reverse) :=
      List.pairwise_reverse.mpr h1
    have h3 : List.Pairwise (fun a b => ovLt b.1 a.1 = true)
        (((db.take (i + 1)).reverse).takeWhile (fun kv => kv.1.oid == oid)) :=
      h2.sublist (List.takeWhile_sublist _)
    refine h3.imp_of_mem ?_
    intro a b ha hb hlt
    have hoa : a.1.oid = oid := by
      have := List.mem_takeWhile_imp ha
      simpa [beq_iff_eq] using this
    have hob : b.1.oid = oid := by
      have := List.mem_takeWhile_imp hb
      simpa [beq_iff_eq] using this
    exact ovLt_same_oid hlt (by rw [hob, hoa])

/-- C1 (amended): for a read dispatched successfully (kernel reads queued)
on a sorted dirty index in which no qualifying dirty version is in a
zero-fill deletion state, the dirty versions are walked in strictly
descending version order, and each requested offset is planned from
exactly the first source in priority order (qualifying dirty versions
newest-first, then the clean entry) covering it — the highest-version
eligible source. -/
theorem c1_read_plans_highest_version (bs : blockstore) (op : blockstore_operation)
    (budget : Nat) (res : read_result)
    (hsort : List.Pairwise (fun a b => ovLt a.1 b.1 = true) bs.dirty_db)
    (hnodel : ∀ kv ∈ dirtyDescRun bs.dirty_db op.oid,
      dirtyQualifies op kv.2 = true → isZeroFillDel kv.2.state = false)
    (h : dequeue_read bs op budget = res)
    (hret : res.ret = 1) (hncb : res.calledBack = false) :
    List.Pairwise (fun a b => b.1.version < a.1.version) (dirtyDescRun bs.dirty_db op.oid) ∧
    ∀ o, op.offset ≤ o → o < op.offset + op.len →
      ∀ s, coversSrc res.rv o s ↔ firstCover (sourceList bs op) o = some s := by
  refine ⟨dirtyDescRun_version_desc bs.dirty_db op.oid hsort, ?_⟩
  unfold dequeue_read at h
  dsimp only at h
  split at h
  case isTrue hcond =>
    subst h
    simp at hncb
  case isFalse hcond =>
    split at h
    case h_1 v =>
      subst h
      simp at hret
    case h_2 =>
      subst h
      simp at hret
    case h_3 plan hplan =>
      split at h
      case isTrue hrv =>
        subst h
        simp at hncb
      case isFalse hrv =>
        subst h
        dsimp only
        rw [processDirty_eq] at hplan
        have hps : processSources op (sourceList bs op)
            { rv := [], zeros := [], budget := budget } = .ok plan := by
          unfold sourceList
          rw [processSources_append]
          cases hpd : processSources op
              ((dirtyDescRun bs.dirty_db op.oid).filterMap
                (fun kv => if dirtyQualifies op kv.2 then some (srcOfDirty kv) else none))
              { rv := [], zeros := [], budget := budget } with
          | error w =>
            rw [hpd] at hplan
            exact Except.noConfusion hplan
          | ok acc =>
            rw [hpd] at hplan
            cases hclean : findClean bs.object_db op.oid with
            | none =>
              rw [hclean] at hplan
              exact hplan
            | some c =>
              rw [hclean] at hplan
              show processSources op [srcOfClean bs.block_size c] acc = Except.ok plan
              rw [processSources_singleton]
              exact hplan
        have hS : ∀ s ∈ sourceList bs op, isZeroFillDel s.state = false := by
          intro s hs
          unfold sourceList at hs
          rcases List.mem_append.mp hs with hs1 | hs2
          · obtain ⟨kv, hkv, hite⟩ := List.mem_filterMap.mp hs1
            by_cases hq : dirtyQualifies op kv.2 = true
            · rw [if_pos hq] at hite
              simp only [Option.some.injEq] at hite
              subst hite
              exact hnodel kv hkv hq
            · rw [if_neg hq] at hite
              exact Option.noConfusion hite
          · cases hclean : findClean bs.object_db op.oid with
            | none =>
              rw [hclean] at hs2
              cases hs2
            | some c =>
              rw [hclean] at hs2
              rcases List.mem_singleton.mp hs2 with rfl
              rfl
        obtain ⟨h1, h2, h3⟩ := processSources_spec op (sourceList bs op)
          { rv := [], zeros := [], budget := budget } plan hS trivial
          (fun e he => absurd he (List.not_mem_nil e)) hps
        intro o ho1 ho2 s
        rw [h3 o ho1 ho2 s]
        simp [coversSrc, covered]

/-- C1, counterexample to the claim as stated: at `exC1bs` a stable
deletion (version 2, `ST_DEL_SYNCED`) is the highest-version eligible
source covering offset 0, but its zero-fill is not recorded in
`read_vec`, so the dispatched plan reads offset 0 from the older version
1 — the queued kernel read lands after the inline `memset`, so the byte
returned comes from version 1, not from the highest-version source. -/
theorem c1_delete_shadowing_counterexample :
    IS_STABLE ST_DEL_SYNCED = true ∧
    firstCover (sourceList exC1bs exReadOp) 0 = some exC1srcV2 ∧
    (dequeue_read exC1bs exReadOp 5).ret = 1 ∧
    coversSrc (dequeue_read exC1bs exReadOp 5).rv 0 exC1srcV1 ∧
    ¬ exC1srcV1 = exC1srcV2 := by
  decide

/-- Witness for `c1_read_plans_highest_version` at `exC1wbs`: offset 2048
is planned from the version-3 source, the first (highest-version)
eligible source covering it. -/
theorem c1_read_plans_highest_version_witness :
    coversSrc (dequeue_read exC1wbs exC1wop 10).rv 2048 exC1wsrcV3 ↔
      firstCover (sourceList exC1wbs exC1wop) 2048 = some exC1wsrcV3 :=
  (c1_read_plans_highest_version exC1wbs exC1wop 10 (dequeue_read exC1wbs exC1wop 10)
    (by decide) (by decide) rfl (by decide) (by decide)).2
    2048 (by decide) (by decide) exC1wsrcV3
